import Mathlib

/-!
# Verification of the srtgears subtitle engine

Shallow embedding of the srtgears Go library (subtitle model, SubRip
parser/serializer, Sub Station Alpha style derivation, and the
parameter-driven executor), with theorems checking the natural-language
specification against the code.

Modelling conventions:
* Go `time.Duration` (an `int64` count of nanoseconds) is modelled as
  unbounded `Int`; `int64` wraparound is out of scope for the properties
  treated here.  Go's truncating integer division `/` and remainder `%`
  are `Int.tdiv` / `Int.tmod`.
* Go `float64` factors are modelled as exact rationals; the Go
  conversion `time.Duration(f)` (truncation toward zero) is `truncQ`.
* Go strings are modelled as `List Char`; a Go `panic` (e.g. index out
  of range) is modelled by returning `none` from an `Option`-valued
  function.
* `sort.Sort` is modelled by a stable insertion sort with the key
  `TimeIn ≤ TimeIn`; the Go sort is unstable, but every property proved
  here depends only on the output being sorted, or is applied to inputs
  with strictly increasing keys, where every correct sort agrees.
-/

namespace Srtgears

/-- `time.Millisecond` in nanoseconds (durations are `Int` counts of
nanoseconds, Go `time.Duration`). -/
def msec : Int := 1000000

/-- `time.Second` in nanoseconds. -/
def second : Int := 1000000000

/-- `time.Minute` in nanoseconds. -/
def minute : Int := 60000000000

/-- `time.Hour` in nanoseconds. -/
def hourd : Int := 3600000000000

/-- Character strings of the Go code, modelled as lists of characters. -/
abbrev Str := List Char

/-- Subtitle position type (`.Pos` of subs.go); zero value is `PosNotSpecified`. -/
inductive Pos where
  | PosNotSpecified
  | BottomLeft
  | Bottom
  | BottomRight
  | Left
  | Center
  | Right
  | TopLeft
  | Top
  | TopRight
deriving DecidableEq, Repr

open Pos

/-- `Subtitle` of subtitle.go: one displayable text with its two timestamps,
position and color. -/
structure Subtitle where
  TimeIn : Int
  TimeOut : Int
  Lines : List Str
  Pos : Pos
  Color : Str
deriving DecidableEq, Repr

instance : Inhabited Subtitle :=
  ⟨⟨0, 0, [], Pos.PosNotSpecified, []⟩⟩

/-- `SubsPack` of subspack.go: the subtitles of a movie. -/
structure SubsPack where
  Subs : List Subtitle
deriving DecidableEq, Repr

/-- Truncation of a rational toward zero: Go's `time.Duration(f)` conversion
from `float64`. -/
def truncQ (q : ℚ) : Int :=
  q.num.tdiv q.den

/-- `Subtitle.DisplayDuration`: the duration for which the subtitle is visible. -/
def DisplayDuration (s : Subtitle) : Int :=
  s.TimeOut - s.TimeIn

/-- `Subtitle.Shift`: shifts the subtitle with the specified delta. -/
def shiftSub (delta : Int) (s : Subtitle) : Subtitle :=
  { s with TimeIn := s.TimeIn + delta, TimeOut := s.TimeOut + delta }

/-- `Subtitle.Scale`: scales the appearance timestamp; display duration
is unchanged.  The `float64` factor is modelled as a rational. -/
def scaleSub (factor : ℚ) (s : Subtitle) : Subtitle :=
  let dispdur := DisplayDuration s
  let tin := truncQ ((s.TimeIn : ℚ) * factor)
  { s with TimeIn := tin, TimeOut := tin + dispdur }

/-- `Subtitle.Lengthen`: lengthens the display duration of the subtitle
(subtitle.go lines 80–88): recompute the duration, re-center on the original
midpoint, clamp a negative `TimeIn` to zero, and derive `TimeOut` from the
(possibly clamped) `TimeIn` plus the new duration. -/
def lengthenSub (factor : ℚ) (s : Subtitle) : Subtitle :=
  let newDur := truncQ ((DisplayDuration s : ℚ) * factor)
  let center := (s.TimeIn + s.TimeOut).tdiv 2
  let tin0 := center - newDur.tdiv 2
  let tin := if tin0 < 0 then 0 else tin0
  { s with TimeIn := tin, TimeOut := tin + newDur }

/-- The boolean sorting key of `SortSubtitles.Less`, weakened to `≤` for the
stable model sort. -/
def leTimeIn (a b : Subtitle) : Bool :=
  a.TimeIn ≤ b.TimeIn

/-- Sorted insertion of one subtitle (stable: an element is placed before
the later-listed elements of equal key). -/
def insertBy (x : Subtitle) : List Subtitle → List Subtitle
  | [] => [x]
  | y :: ys => if leTimeIn x y then x :: y :: ys else y :: insertBy x ys

/-- A stable insertion sort by `TimeIn`, modelling `sort.Sort` of
`SubsPack.Sort` (any correct sort; Go's is unstable, and no property below
depends on the order of equal keys). -/
def sortSubsList : List Subtitle → List Subtitle
  | [] => []
  | x :: xs => insertBy x (sortSubsList xs)

/-- `SubsPack.Sort`: sorts the subtitles by appearance timestamp. -/
def sortPack (sp : SubsPack) : SubsPack :=
  ⟨sortSubsList sp.Subs⟩

/-- `SubsPack.Shift`: shifts all subtitles with the specified delta. -/
def shiftPack (sp : SubsPack) (delta : Int) : SubsPack :=
  ⟨sp.Subs.map (shiftSub delta)⟩

/-- `SubsPack.Scale`: scales the timestamps of all subtitles. -/
def scalePack (sp : SubsPack) (factor : ℚ) : SubsPack :=
  ⟨sp.Subs.map (scaleSub factor)⟩

/-- `SubsPack.Lengthen`: lengthens the display duration of all subtitles. -/
def lengthenPack (sp : SubsPack) (factor : ℚ) : SubsPack :=
  ⟨sp.Subs.map (lengthenSub factor)⟩

/-- `SubsPack.SetPos`: sets the position of all subtitles. -/
def setPos (sp : SubsPack) (pos : Pos) : SubsPack :=
  ⟨sp.Subs.map (fun s => { s with Pos := pos })⟩

/-- `SubsPack.SetColor`: sets the color of all subtitles. -/
def setColor (sp : SubsPack) (color : Str) : SubsPack :=
  ⟨sp.Subs.map (fun s => { s with Color := color })⟩

/-- `SubsPack.Concatenate` (subspack.go lines 164–172): shift the second
pack by the start time of the 2nd part, append its subtitles and sort. -/
def concatenate (sp sp2 : SubsPack) (secPartStart : Int) : SubsPack :=
  let sp2' := shiftPack sp2 secPartStart
  sortPack ⟨sp.Subs ++ sp2'.Subs⟩

/-- `SubsPack.Merge` (subspack.go lines 178–190), exactly as written in the
source: it calls `sp.SetPos(PosNotSpecified)` and then — despite its comment
"Put other subtitles to the top:" — `sp.SetPos(Top)` again on the receiver,
never touching `sp2`; then appends and sorts. -/
def merge (sp sp2 : SubsPack) : SubsPack :=
  let a := setPos sp PosNotSpecified
  let a := setPos a Top
  sortPack ⟨a.Subs ++ sp2.Subs⟩

/-- The loop body of Go's `sort.Search`: binary search for the least index
`i < n` with `f i = true` (`n` if none), assuming `f` monotone. -/
def searchLoop (f : Nat → Bool) : Nat → Nat → Nat → Nat
  | 0, i, _ => i
  | fuel + 1, i, j =>
    if i < j then
      if f ((i + j) / 2) then searchLoop f fuel i ((i + j) / 2)
      else searchLoop f fuel ((i + j) / 2 + 1) j
    else i

/-- Go `sort.Search n f`.  The fuel argument of the loop only bounds the
iteration count (the gap `j - i` shrinks by at least one per step, so any
fuel `≥ n` gives the exact Go semantics). -/
def sortSearch (n : Nat) (f : Nat → Bool) : Nat :=
  searchLoop f n 0 n

/-- `SubsPack.Split` (subspack.go lines 197–213): binary-search the first
index whose `TimeIn ≥ at`, move the tail to a new pack shifted by `-at`,
keep the head.  Returns (receiver after the call, the new pack). -/
def split (sp : SubsPack) (at_ : Int) : SubsPack × SubsPack :=
  let subs := sp.Subs
  let idx := sortSearch subs.length (fun i => decide (at_ ≤ (subs.getD i default).TimeIn))
  let sp2 := shiftPack ⟨subs.drop idx⟩ (-at_)
  (⟨subs.take idx⟩, sp2)

/-- Splits a string at its first `>`: returns the part before it and the part
after it.  Helper for the Go regexp `<[^>]+>` (htmlPattern). -/
def findGtSplit : Str → Option (Str × Str)
  | [] => none
  | c :: rest =>
    if c = '>' then some ([], rest)
    else
      match findGtSplit rest with
      | some (a, b) => some (c :: a, b)
      | none => none

/-- `htmlPattern.ReplaceAllString(line, "")` for the Go regexp `<[^>]+>`:
deletes every maximal substring consisting of `<`, one or more non-`>`
characters, and `>`.  The fuel argument only bounds the recursion depth
(every step strictly shortens the string, so any fuel `≥` the input length
gives the full replacement). -/
def stripTagsGo : Nat → Str → Str
  | 0, l => l
  | fuel + 1, l =>
    match l with
    | [] => []
    | c :: rest =>
      if c = '<' then
        match findGtSplit rest with
        | some (a, b) =>
          if a = [] then c :: stripTagsGo fuel rest else stripTagsGo fuel b
        | none => c :: stripTagsGo fuel rest
      else c :: stripTagsGo fuel rest

def stripTags (l : Str) : Str :=
  stripTagsGo l.length l

/-- The hearing-impaired check of `Subtitle.RemoveHI` applied to an
(already stripped) non-empty line `first :: _`:
`first == '[' && last == ']' || first == '(' && last == ')'`. -/
def hiBracketed (first last : Char) : Bool :=
  (first = '[' ∧ last = ']') ∨ (first = '(' ∧ last = ')')

/-- The loop of `Subtitle.RemoveHI` (subtitle.go lines 49–63) over the lines:
check each line with HTML formatting stripped, removing the matching
(original) lines; `none` models the Go index-out-of-range panic when a line
is empty after stripping.  The `Bool` is the `remove` result flag. -/
def removeHILines : List Str → Option (List Str × Bool)
  | [] => some ([], false)
  | l :: rest => do
    let (rest', flag) ← removeHILines rest
    match stripTags l with
    | [] => none
    | first :: more =>
      if hiBracketed first ((first :: more).getLastD ' ') then some (rest', true)
      else some (l :: rest', flag)

/-- `Subtitle.RemoveHI`: removes hearing impaired lines; `none` models the
panic on a line that is empty after HTML stripping. -/
def removeHISub (s : Subtitle) : Option (Subtitle × Bool) :=
  match removeHILines s.Lines with
  | none => none
  | some (ls, flag) => some ({ s with Lines := ls }, flag)

/-- `SubsPack.RemoveHI` (subspack.go lines 144–153): run `Subtitle.RemoveHI`
on every subtitle and remove the subtitles whose line list became empty. -/
def removeHIPack (sp : SubsPack) : Option SubsPack :=
  match go sp.Subs with
  | none => none
  | some l => some ⟨l⟩
where
  go : List Subtitle → Option (List Subtitle)
    | [] => some []
    | s :: rest => do
      let rest' ← go rest
      let (s', _) ← removeHISub s
      if s'.Lines = [] then pure rest' else pure (s' :: rest')

/-- Claim C8's description of a hearing-impaired line, following the spec's
words: after stripping HTML-like markup for the purpose of the check only,
the line starts with `[` and ends with `]`, or starts with `(` and ends
with `)`. -/
def specHILine (l : Str) : Bool :=
  match stripTags l with
  | [] => false
  | first :: more => hiBracketed first ((first :: more).getLastD ' ')

/-- Claim C8's description of pack-level `RemoveHI`, following the spec's
words: remove every hearing-impaired line from each entry, then delete
every entry whose line list became empty. -/
def specRemoveHI (sp : SubsPack) : SubsPack :=
  ⟨(sp.Subs.map
      (fun s => { s with Lines := s.Lines.filter (fun l => ! specHILine l) })).filter
    (fun s => s.Lines ≠ [])⟩

/-! ## String utilities shared by the SubRip parser and serializer -/

/-- Go regexp `\s`: whitespace class `[\t\n\f\r ]`. -/
def isWs (c : Char) : Bool :=
  c = ' ' ∨ c = '\t' ∨ c = '\n' ∨ c = '\x0c' ∨ c = '\r'

/-- ASCII decimal digit test. -/
def isDigitC (c : Char) : Bool :=
  '0' ≤ c ∧ c ≤ '9'

/-- Value of an ASCII decimal digit. -/
def digitVal (c : Char) : Nat :=
  c.toNat - '0'.toNat

/-- The ASCII digit character of `d < 10`. -/
def digitChar : Nat → Char
  | 0 => '0'
  | 1 => '1'
  | 2 => '2'
  | 3 => '3'
  | 4 => '4'
  | 5 => '5'
  | 6 => '6'
  | 7 => '7'
  | 8 => '8'
  | 9 => '9'
  | _ => '?'

/-- Decimal digits of a natural number (most significant first), with an
accumulator; the fuel only bounds the recursion depth (any fuel `≥` the
number of digits suffices). -/
def decDigitsAux : Nat → Nat → List Char → List Char
  | 0, n, acc => digitChar n :: acc
  | fuel + 1, n, acc =>
    if n < 10 then digitChar n :: acc
    else decDigitsAux fuel (n / 10) (digitChar (n % 10) :: acc)

/-- Decimal digits of a natural number, as printed by Go's `fmt` `%d`. -/
def decDigits (n : Nat) : List Char :=
  decDigitsAux n n []

/-- Go's `fmt` `%0wd` of an integer: decimal digits zero-padded to width `w`
(the sign, if any, counts toward the width and precedes the padding). -/
def pad0 (w : Nat) (n : Int) : Str :=
  let ds := decDigits n.natAbs
  if n < 0 then '-' :: List.replicate (w - 1 - ds.length) '0' ++ ds
  else List.replicate (w - ds.length) '0' ++ ds

/-- Windows-style newline used by the `writer` utility (`newLine`). -/
def crlf : Str := ['\r', '\n']

/-- Drops a single trailing carriage return, as `bufio.ScanLines` does on
each line. -/
def dropTrailCR (l : Str) : Str :=
  if l.getLastD ' ' = '\r' ∧ l ≠ [] then l.dropLast else l

/-- Splits input into lines exactly as `bufio.Scanner` with `ScanLines`
does: tokens are separated by `\n`, a `\r` directly before the `\n` is
dropped, and a final token without a trailing newline is still emitted.
The fuel only bounds the recursion depth (any fuel `>` the input length
suffices, as every step strictly shortens the input). -/
def splitLinesGo : Nat → Str → List Str
  | 0, _ => []
  | fuel + 1, l =>
    if l = [] then []
    else
      match l.dropWhile (fun c => ¬ c = '\n') with
      | [] => [dropTrailCR (l.takeWhile (fun c => ¬ c = '\n'))]
      | _ :: tail => dropTrailCR (l.takeWhile (fun c => ¬ c = '\n')) :: splitLinesGo fuel tail

def splitLines (l : Str) : List Str :=
  splitLinesGo (l.length + 1) l

/-! ## The SubRip timestamp pattern

Embedding of the Go regexp
`(\d\d):(\d\d):(\d\d)[,\.](\d\d\d)\s*-+>\s*(\d\d):(\d\d):(\d\d)[,\.](\d\d\d)`
(`timestampsPattern` of subrip.go) and of the single-timestamp pattern
`(\d\d):(\d\d):(\d\d)[,\.](\d\d\d)` (`timestampPattern` of exec/executor.go).
All alternatives of the pattern are deterministic, so the match is a
straightforward scan. -/

/-- Reads exactly two decimal digits. -/
def readDigit2 : Str → Option (Nat × Str)
  | a :: b :: rest =>
    if isDigitC a ∧ isDigitC b then some (digitVal a * 10 + digitVal b, rest) else none
  | _ => none

/-- Reads exactly three decimal digits. -/
def readDigit3 : Str → Option (Nat × Str)
  | a :: b :: c :: rest =>
    if isDigitC a ∧ isDigitC b ∧ isDigitC c then
      some (digitVal a * 100 + digitVal b * 10 + digitVal c, rest)
    else none
  | _ => none

/-- Reads one expected character. -/
def expectChar (c : Char) : Str → Option Str
  | x :: rest => if x = c then some rest else none
  | _ => none

/-- One timestamp group `(\d\d):(\d\d):(\d\d)[,\.](\d\d\d)` matched at the
head of the string; returns hours, minutes, seconds, milliseconds and the
rest of the string. -/
def tsOnce (l : Str) : Option ((Nat × Nat × Nat × Nat) × Str) := do
  let (h, r1) ← readDigit2 l
  let r2 ← expectChar ':' r1
  let (m, r3) ← readDigit2 r2
  let r4 ← expectChar ':' r3
  let (s, r5) ← readDigit2 r4
  match r5 with
  | sep :: r6 =>
    if sep = ',' ∨ sep = '.' then do
      let (d, r7) ← readDigit3 r6
      some ((h, m, s, d), r7)
    else none
  | [] => none

/-- The full two-timestamp pattern (timestamp, `\s*-+>\s*`, timestamp)
matched at the head of the string. -/
def tsPairAt (l : Str) : Option ((Nat × Nat × Nat × Nat) × (Nat × Nat × Nat × Nat)) := do
  let (t1, r1) ← tsOnce l
  let r2 := r1.dropWhile isWs
  let ds := r2.takeWhile (fun c => c = '-')
  if ds = [] then none
  else do
    let r3 ← expectChar '>' (r2.dropWhile (fun c => c = '-'))
    let (t2, _) ← tsOnce (r3.dropWhile isWs)
    some (t1, t2)

/-- Leftmost match of the two-timestamp pattern (`FindStringSubmatch`). -/
def tsSearch : Str → Option ((Nat × Nat × Nat × Nat) × (Nat × Nat × Nat × Nat))
  | [] => none
  | c :: rest =>
    match tsPairAt (c :: rest) with
    | some r => some r
    | none => tsSearch rest

/-- Leftmost match of the single-timestamp pattern (`FindStringSubmatch` of
`timestampPattern` in the executor). -/
def tsSearchOne : Str → Option (Nat × Nat × Nat × Nat)
  | [] => none
  | c :: rest =>
    match tsOnce (c :: rest) with
    | some (r, _) => some r
    | none => tsSearchOne rest

/-- `time.Hour*h + time.Minute*m + time.Second*s + time.Millisecond*f`. -/
def durOf (q : Nat × Nat × Nat × Nat) : Int :=
  hourd * (q.1 : Int) + minute * (q.2.1 : Int) + second * (q.2.2.1 : Int) + msec * (q.2.2.2 : Int)

/-- `parseTimestamps` of subrip.go: on a match set both timestamps, on a
non-matching line leave the subtitle unchanged (a diagnostic only). -/
def parseTimestamps (s : Subtitle) (line : Str) : Subtitle :=
  match tsSearch line with
  | none => s
  | some (t1, t2) => { s with TimeIn := durOf t1, TimeOut := durOf t2 }

/-! ## SubRip reading (`ReadSrtFrom`, subrip.go lines 342–425) -/

/-- `srtPosToModelPos`: mapping from the digit of a `{\anX}` marker to the
model position. -/
def srtPosToModelPos : Char → Option Pos
  | '7' => some Pos.TopLeft
  | '8' => some Pos.Top
  | '9' => some Pos.TopRight
  | '4' => some Pos.Left
  | '5' => some Pos.Center
  | '6' => some Pos.Right
  | '1' => some Pos.BottomLeft
  | '2' => some Pos.Bottom
  | '3' => some Pos.BottomRight
  | _ => none

/-- The position-marker post-processing step of `addSub`: if the first line
begins with the raw prefix `{\a`, recognize the 6-character `{\anX}` variant
and cut it off (the `{\aX}` variant is left alone — a `TODO` in the source). -/
def posSpecStep (s : Subtitle) : Subtitle :=
  match s.Lines with
  | [] => s
  | line :: rest =>
    if ['\x7b', '\\', 'a'].isPrefixOf line then
      if 6 ≤ line.length ∧ line.getD 3 ' ' = 'n' ∧ line.getD 5 ' ' = '\x7d' then
        match srtPosToModelPos (line.getD 4 ' ') with
        | some p => { s with Pos := p, Lines := line.drop 6 :: rest }
        | none => s
      else s
    else s

/-- The tail of the starter-font pattern after `color\s*=\s*`:
`['"]?([^'"]*)['"]?\s*>` with Go's leftmost-first (greedy, backtracking)
semantics.  Returns (rest of the line after the match, captured color). -/
def fontTail (l : Str) : Option (Str × Str) :=
  let r10 := if (l.headD ' ' = '\'' ∨ l.headD ' ' = '"') then l.tail else l
  let run := r10.takeWhile (fun c => ¬ (c = '\'' ∨ c = '"'))
  let r11 := r10.dropWhile (fun c => ¬ (c = '\'' ∨ c = '"'))
  match r11 with
  | q :: r12 =>
    match (r12.dropWhile isWs) with
    | '>' :: r14 =>
      -- the optional closing quote `q` is consumed, `\s*` then `>`
      let _ := q
      some (r14, run)
    | _ => fontTailRun run r11
  | [] => fontTailRun run r11
where
  /-- Fallback: the group backtracks inside `run`; the capture extends to
  just before the last `>` of `run` (whitespace before that `>` may be
  soaked up by `\s*`, which never changes which `>` is used). -/
  fontTailRun (run r11 : Str) : Option (Str × Str) :=
    if run.contains '>' then
      let keep := run.length - (run.reverse.takeWhile (fun c => ¬ c = '>')).length
      some (run.drop keep ++ r11, run.take (keep - 1))
    else none

/-- The starter font pattern `^\s*<\s*font\s+color\s*=\s*['"]?([^'"]*)['"]?\s*>`
(`starterFontPattern`), matched at the start of a line.  Returns (rest of
the line after the whole match, captured color attribute). -/
def fontStarter (l : Str) : Option (Str × Str) :=
  match l.dropWhile isWs with
  | [] => none
  | c :: r2 =>
    if c = '<' then
      let r3 := r2.dropWhile isWs
      if ['f', 'o', 'n', 't'].isPrefixOf r3 then
        let r4 := r3.drop 4
        if isWs (r4.headD ' ') then
          let r5 := r4.dropWhile isWs
          if ['c', 'o', 'l', 'o', 'r'].isPrefixOf r5 then
            match (r5.drop 5).dropWhile isWs with
            | '=' :: r8 => fontTail (r8.dropWhile isWs)
            | _ => none
          else none
        else none
      else none
    else none

/-- A match of the closing pattern `<\s*/\s*font\s*>` (`fontClosingPattern`)
at the head of the string: returns the rest after the match. -/
def fontClosingHead : Str → Option Str
  | '<' :: r1 =>
    match r1.dropWhile isWs with
    | '/' :: r3 =>
      let r4 := r3.dropWhile isWs
      if ['f', 'o', 'n', 't'].isPrefixOf r4 then
        match (r4.drop 4).dropWhile isWs with
        | '>' :: r6 => some r6
        | _ => none
      else none
    | _ => none
  | _ => none

/-- Leftmost match of the closing font pattern in a line: returns the parts
before and after the match (`FindStringIndex` + cutting the match out). -/
def fontClosingSplit : Str → Option (Str × Str)
  | [] => none
  | c :: rest =>
    match fontClosingHead (c :: rest) with
    | some after => some ([], after)
    | none =>
      match fontClosingSplit rest with
      | some (a, b) => some (c :: a, b)
      | none => none

/-- Removes the first `</font>` found in the lines (scanning lines in order,
stopping at the first line that contains a match). -/
def stripFirstFontClosing : List Str → List Str
  | [] => []
  | l :: rest =>
    match fontClosingSplit l with
    | some (a, b) => (a ++ b) :: rest
    | none => l :: stripFirstFontClosing rest

/-- The font post-processing step of `addSub`: if the first line starts with
a `<font color=...>` tag, record the color, cut the tag off the first line
and remove the first `</font>` from whichever line holds it. -/
def fontStep (s : Subtitle) : Subtitle :=
  match s.Lines with
  | [] => s
  | l0 :: rest =>
    match fontStarter l0 with
    | some (restLine, color) =>
      { s with Color := color, Lines := stripFirstFontClosing (restLine :: rest) }
    | none => s

/-- `addSub`'s post-processing of a completed record (subrip.go lines
348–377): position-marker extraction then font extraction, both only when
there is at least one line. -/
def addSub (s : Subtitle) : Subtitle :=
  if s.Lines = [] then s else fontStep (posSpecStep s)

/-- Parser phase of `ReadSrtFrom`: wanting a sequence number, wanting the
timestamp line, or accumulating text lines of the current subtitle. -/
inductive PState where
  | wantSeq
  | wantTs (s : Subtitle)
  | wantText (s : Subtitle)
deriving DecidableEq, Repr

/-- One line of the `ReadSrtFrom` scanner loop. -/
def rstep : PState × List Subtitle → Str → PState × List Subtitle
  | (PState.wantSeq, acc), line =>
    if line = [] then (PState.wantSeq, acc)
    else (PState.wantTs default, acc)
  | (PState.wantTs s, acc), line => (PState.wantText (parseTimestamps s line), acc)
  | (PState.wantText s, acc), line =>
    if line = [] then (PState.wantSeq, acc ++ [addSub s])
    else (PState.wantText { s with Lines := s.Lines ++ [line] }, acc)

/-- Strips a leading byte-order mark (done for the first input line only). -/
def stripBOM (l : Str) : Str :=
  if l.headD ' ' = '\uFEFF' then l.tail else l

/-- `ReadSrtFrom`, starting from the already-split input lines: run the
three-phase machine over the lines, flush a final unterminated record, and
sort the pack by `TimeIn`. -/
def readSrtLines (lines : List Str) : SubsPack :=
  let lines' :=
    match lines with
    | [] => []
    | l :: rest => stripBOM l :: rest
  let res := lines'.foldl rstep (PState.wantSeq, [])
  let acc :=
    match res.1 with
    | PState.wantSeq => res.2
    | PState.wantTs s => res.2 ++ [addSub s]
    | PState.wantText s => res.2 ++ [addSub s]
  sortPack ⟨acc⟩

/-- `ReadSrtFrom` from raw input characters: `bufio.Scanner` line splitting,
then the line machine. -/
def readSrt (input : Str) : SubsPack :=
  readSrtLines (splitLines input)

/-! ## SubRip writing (`WriteSrtTo`, subrip.go lines 473–523) -/

/-- `modelPosToSrtPos`: model position to the `{\anX}` digit; the Go map
yields the zero byte for `PosNotSpecified` (never queried for it). -/
def modelPosToSrtPos : Pos → Char
  | Pos.TopLeft => '7'
  | Pos.Top => '8'
  | Pos.TopRight => '9'
  | Pos.Left => '4'
  | Pos.Center => '5'
  | Pos.Right => '6'
  | Pos.BottomLeft => '1'
  | Pos.Bottom => '2'
  | Pos.BottomRight => '3'
  | Pos.PosNotSpecified => '\x00'

/-- Timestamp rendering with an explicit separator before the milliseconds:
`%02d:%02d:%02d` then `sep` then `%03d`, from Go's truncated division and
remainder on `time.Duration`. -/
def printTimeSep (sep : Char) (t : Int) : Str :=
  pad0 2 (t.tdiv hourd) ++ ':' :: pad0 2 ((t.tmod hourd).tdiv minute) ++
    ':' :: pad0 2 ((t.tmod minute).tdiv second) ++ sep :: pad0 3 ((t.tmod second).tdiv msec)

/-- `printTime` of `WriteSrtTo` as written in the source: the format string
is `"%02d:%02d:%02d.%03d"` — the separator before the milliseconds is a
period. -/
def printTime (t : Int) : Str :=
  printTimeSep '.' t

/-- The text lines of a color-wrapped subtitle: each line followed by the
newline, with `</font>` appended after the last one. -/
def writeTextFont : List Str → Str
  | [] => []
  | [l] => l ++ ('<' :: '/' :: 'f' :: 'o' :: 'n' :: 't' :: '>' :: crlf)
  | l :: rest => l ++ crlf ++ writeTextFont rest

/-- Plain text lines: each line followed by the newline. -/
def writeTextPlain : List Str → Str
  | [] => []
  | l :: rest => l ++ crlf ++ writeTextPlain rest

/-- The text lines of one subtitle as emitted by `WriteSrtTo`: a `{\anX}`
marker before the first line when the position is specified, and the whole
text wrapped in `<font color="...">` ... `</font>` when the color is
non-empty. -/
def writeText (s : Subtitle) : Str :=
  match s.Lines with
  | [] => []
  | l0 :: rest =>
    let posPre : Str :=
      if s.Pos ≠ PosNotSpecified then
        ['\x7b', '\\', 'a', 'n', modelPosToSrtPos s.Pos, '\x7d']
      else []
    if s.Color ≠ [] then
      posPre ++ ('<' :: ('f' :: 'o' :: 'n' :: 't' :: ' ' :: 'c' :: 'o' :: 'l' :: 'o' :: 'r' :: '=' :: '"' :: s.Color)) ++ '"' :: '>' :: writeTextFont (l0 :: rest)
    else posPre ++ writeTextPlain (l0 :: rest)

/-- One record as emitted by `WriteSrtTo`: 1-based sequence number, the two
timestamps separated by `" --> "`, the text lines, and a blank separator
line. -/
def writeSub (i : Nat) (s : Subtitle) : Str :=
  decDigits (i + 1) ++ crlf ++
    printTime s.TimeIn ++ (' ' :: '-' :: '-' :: '>' :: ' ' :: printTime s.TimeOut) ++ crlf ++
    writeText s ++ crlf

/-- The record loop of `WriteSrtTo` from sequence number `i + 1` on. -/
def writeSubsFrom (i : Nat) : List Subtitle → Str
  | [] => []
  | s :: rest => writeSub i s ++ writeSubsFrom (i + 1) rest

/-- `WriteSrtTo`: the full SubRip output of a pack (write errors of the
underlying `io.Writer` are not modelled). -/
def writeSrt (sp : SubsPack) : Str :=
  writeSubsFrom 0 sp.Subs

/-! ## Control-code stripping (`controlPattern`, `htmlPattern` consumers) -/

/-- Splits a string at its first `}`: the part before and the part after.
Helper for the Go regexp `^{\\[^}]*}` (controlPattern). -/
def findRbSplit : Str → Option (Str × Str)
  | [] => none
  | c :: rest =>
    if c = '\x7d' then some ([], rest)
    else
      match findRbSplit rest with
      | some (a, b) => some (c :: a, b)
      | none => none

/-- `controlPattern.ReplaceAllString(line, "")` for `^{\\[^}]*}`: removes a
leading `{\...}` control (the pattern is anchored, so at most one
replacement happens). -/
def controlStrip (l : Str) : Str :=
  match l with
  | '\x7b' :: '\\' :: rest =>
    match findRbSplit rest with
    | some (_, after) => after
    | none => l
  | _ => l

/-- `Subtitle.RemoveControl` (subtitle.go lines 111–120): strip a leading
control from every line, zero the position; the flag tells whether controls
or a position were present. -/
def removeControlSub (s : Subtitle) : Subtitle × Bool :=
  let lines := s.Lines.map controlStrip
  ({ s with Lines := lines, Pos := Pos.PosNotSpecified },
    decide (lines ≠ s.Lines) || decide (s.Pos ≠ Pos.PosNotSpecified))

/-- `Subtitle.RemoveHTML` (subtitle.go lines 95–104): strip HTML tags from
every line, zero the color; the flag tells whether formatting was present. -/
def removeHTMLSub (s : Subtitle) : Subtitle × Bool :=
  let lines := s.Lines.map stripTags
  ({ s with Lines := lines, Color := [] },
    decide (lines ≠ s.Lines) || decide (s.Color ≠ []))

/-- `SubsPack.RemoveControl`. -/
def removeControlPack (sp : SubsPack) : SubsPack :=
  ⟨sp.Subs.map (fun s => (removeControlSub s).1)⟩

/-- `SubsPack.RemoveHTML`. -/
def removeHTMLPack (sp : SubsPack) : SubsPack :=
  ⟨sp.Subs.map (fun s => (removeHTMLSub s).1)⟩

/-- The mutations `SubsPack.Stats` performs on one subtitle while gathering
statistics: `RemoveControl`, then `RemoveHTML`, then `RemoveHI` (the counted
numbers do not affect the state and are not modelled); `none` models the
`RemoveHI` panic. -/
def statsTouchSub (s : Subtitle) : Option Subtitle :=
  let s1 := (removeControlSub s).1
  let s2 := (removeHTMLSub s1).1
  (removeHISub s2).map (fun p => p.1)

/-- The state change of `SubsPack.Stats` ("Subtitles will be modified."):
every subtitle is touched in order; the pack's list itself is unchanged. -/
def statsTouch (sp : SubsPack) : Option SubsPack :=
  (sp.Subs.mapM statsTouchSub).map (fun l => ⟨l⟩)

/-! ## Sub Station Alpha style derivation (sub_station_alpha.go) -/

/-- Hexadecimal digit value, upper or lower case (Go `strconv` base-16). -/
def hexDigVal (c : Char) : Option Nat :=
  if isDigitC c then some (digitVal c)
  else if 'a' ≤ c ∧ c ≤ 'f' then some (c.toNat - 'a'.toNat + 10)
  else if 'A' ≤ c ∧ c ≤ 'F' then some (c.toNat - 'A'.toNat + 10)
  else none

/-- Accumulating base-16 digit parse. -/
def hexFold : Str → Nat → Option Nat
  | [], acc => some acc
  | c :: rest, acc =>
    match hexDigVal c with
    | some d => hexFold rest (acc * 16 + d)
    | none => none

/-- Go `strconv.ParseInt(s, 16, 64)`: an optional sign, one or more hex
digits, and an `int64` range check; `none` models a returned error. -/
def goParseIntHex (s : Str) : Option Int :=
  let core : Str → Int → Option Int := fun ds sign =>
    match ds with
    | [] => none
    | _ :: _ =>
      match hexFold ds 0 with
      | some n =>
        let v : Int := sign * (n : Int)
        if v < -(2 ^ 63) ∨ (2 ^ 63 - 1 : Int) < v then none else some v
      | none => none
  match s with
  | '+' :: rest => core rest 1
  | '-' :: rest => core rest (-1)
  | _ => core s 1

/-- `strings.ToLower`, for the ASCII color names of the table. -/
def toLowerStr (s : Str) : Str :=
  s.map Char.toLower

/-- `htmlColorRGB` of sub_station_alpha.go: HTML color names and their RGB
codes (148 entries). -/
def htmlColorRGB : List (Str × Str) := [
  ("aliceblue".toList, "F0F8FF".toList),
  ("antiquewhite".toList, "FAEBD7".toList),
  ("aqua".toList, "00FFFF".toList),
  ("aquamarine".toList, "7FFFD4".toList),
  ("azure".toList, "F0FFFF".toList),
  ("beige".toList, "F5F5DC".toList),
  ("bisque".toList, "FFE4C4".toList),
  ("black".toList, "000000".toList),
  ("blanchedalmond".toList, "FFEBCD".toList),
  ("blue".toList, "0000FF".toList),
  ("blueviolet".toList, "8A2BE2".toList),
  ("brown".toList, "A52A2A".toList),
  ("burlywood".toList, "DEB887".toList),
  ("cadetblue".toList, "5F9EA0".toList),
  ("chartreuse".toList, "7FFF00".toList),
  ("chocolate".toList, "D2691E".toList),
  ("coral".toList, "FF7F50".toList),
  ("cornflowerblue".toList, "6495ED".toList),
  ("cornsilk".toList, "FFF8DC".toList),
  ("crimson".toList, "DC143C".toList),
  ("cyan".toList, "00FFFF".toList),
  ("darkblue".toList, "00008B".toList),
  ("darkcyan".toList, "008B8B".toList),
  ("darkgoldenrod".toList, "B8860B".toList),
  ("darkgray".toList, "A9A9A9".toList),
  ("darkgrey".toList, "A9A9A9".toList),
  ("darkgreen".toList, "006400".toList),
  ("darkkhaki".toList, "BDB76B".toList),
  ("darkmagenta".toList, "8B008B".toList),
  ("darkolivegreen".toList, "556B2F".toList),
  ("darkorange".toList, "FF8C00".toList),
  ("darkorchid".toList, "9932CC".toList),
  ("darkred".toList, "8B0000".toList),
  ("darksalmon".toList, "E9967A".toList),
  ("darkseagreen".toList, "8FBC8F".toList),
  ("darkslateblue".toList, "483D8B".toList),
  ("darkslategray".toList, "2F4F4F".toList),
  ("darkslategrey".toList, "2F4F4F".toList),
  ("darkturquoise".toList, "00CED1".toList),
  ("darkviolet".toList, "9400D3".toList),
  ("deeppink".toList, "FF1493".toList),
  ("deepskyblue".toList, "00BFFF".toList),
  ("dimgray".toList, "696969".toList),
  ("dimgrey".toList, "696969".toList),
  ("dodgerblue".toList, "1E90FF".toList),
  ("firebrick".toList, "B22222".toList),
  ("floralwhite".toList, "FFFAF0".toList),
  ("forestgreen".toList, "228B22".toList),
  ("fuchsia".toList, "FF00FF".toList),
  ("gainsboro".toList, "DCDCDC".toList),
  ("ghostwhite".toList, "F8F8FF".toList),
  ("gold".toList, "FFD700".toList),
  ("goldenrod".toList, "DAA520".toList),
  ("gray".toList, "808080".toList),
  ("grey".toList, "808080".toList),
  ("green".toList, "008000".toList),
  ("greenyellow".toList, "ADFF2F".toList),
  ("honeydew".toList, "F0FFF0".toList),
  ("hotpink".toList, "FF69B4".toList),
  ("indianred".toList, "CD5C5C".toList),
  ("indigo".toList, "4B0082".toList),
  ("ivory".toList, "FFFFF0".toList),
  ("khaki".toList, "F0E68C".toList),
  ("lavender".toList, "E6E6FA".toList),
  ("lavenderblush".toList, "FFF0F5".toList),
  ("lawngreen".toList, "7CFC00".toList),
  ("lemonchiffon".toList, "FFFACD".toList),
  ("lightblue".toList, "ADD8E6".toList),
  ("lightcoral".toList, "F08080".toList),
  ("lightcyan".toList, "E0FFFF".toList),
  ("lightgoldenrodyellow".toList, "FAFAD2".toList),
  ("lightgray".toList, "D3D3D3".toList),
  ("lightgrey".toList, "D3D3D3".toList),
  ("lightgreen".toList, "90EE90".toList),
  ("lightpink".toList, "FFB6C1".toList),
  ("lightsalmon".toList, "FFA07A".toList),
  ("lightseagreen".toList, "20B2AA".toList),
  ("lightskyBlue".toList, "87CEFA".toList),
  ("lightslategray".toList, "778899".toList),
  ("lightslategrey".toList, "778899".toList),
  ("lightsteelBlue".toList, "B0C4DE".toList),
  ("lightyellow".toList, "FFFFE0".toList),
  ("lime".toList, "00FF00".toList),
  ("limegreen".toList, "32CD32".toList),
  ("linen".toList, "FAF0E6".toList),
  ("magenta".toList, "FF00FF".toList),
  ("maroon".toList, "800000".toList),
  ("mediumaquamarine".toList, "66CDAA".toList),
  ("mediumblue".toList, "0000CD".toList),
  ("mediumorchid".toList, "BA55D3".toList),
  ("mediumpurple".toList, "9370DB".toList),
  ("mediumseagreen".toList, "3CB371".toList),
  ("mediumslateblue".toList, "7B68EE".toList),
  ("mediumspringgreen".toList, "00FA9A".toList),
  ("mediumturquoise".toList, "48D1CC".toList),
  ("mediumvioletred".toList, "C71585".toList),
  ("midnightblue".toList, "191970".toList),
  ("mintcream".toList, "F5FFFA".toList),
  ("mistyrose".toList, "FFE4E1".toList),
  ("moccasin".toList, "FFE4B5".toList),
  ("navajowhite".toList, "FFDEAD".toList),
  ("navy".toList, "000080".toList),
  ("oldlace".toList, "FDF5E6".toList),
  ("olive".toList, "808000".toList),
  ("olivedrab".toList, "6B8E23".toList),
  ("orange".toList, "FFA500".toList),
  ("orangered".toList, "FF4500".toList),
  ("orchid".toList, "DA70D6".toList),
  ("palegoldenrod".toList, "EEE8AA".toList),
  ("palegreen".toList, "98FB98".toList),
  ("paleturquoise".toList, "AFEEEE".toList),
  ("palevioletred".toList, "DB7093".toList),
  ("papayawhip".toList, "FFEFD5".toList),
  ("peachpuff".toList, "FFDAB9".toList),
  ("peru".toList, "CD853F".toList),
  ("pink".toList, "FFC0CB".toList),
  ("plum".toList, "DDA0DD".toList),
  ("powderblue".toList, "B0E0E6".toList),
  ("purple".toList, "800080".toList),
  ("rebeccapurple".toList, "663399".toList),
  ("red".toList, "FF0000".toList),
  ("rosybrown".toList, "BC8F8F".toList),
  ("royalblue".toList, "4169E1".toList),
  ("saddlebrown".toList, "8B4513".toList),
  ("salmon".toList, "FA8072".toList),
  ("sandybrown".toList, "F4A460".toList),
  ("seagreen".toList, "2E8B57".toList),
  ("seashell".toList, "FFF5EE".toList),
  ("sienna".toList, "A0522D".toList),
  ("silver".toList, "C0C0C0".toList),
  ("skyblue".toList, "87CEEB".toList),
  ("slateblue".toList, "6A5ACD".toList),
  ("slategray".toList, "708090".toList),
  ("slategrey".toList, "708090".toList),
  ("snow".toList, "FFFAFA".toList),
  ("springgreen".toList, "00FF7F".toList),
  ("steelblue".toList, "4682B4".toList),
  ("tan".toList, "D2B48C".toList),
  ("teal".toList, "008080".toList),
  ("thistle".toList, "D8BFD8".toList),
  ("tomato".toList, "FF6347".toList),
  ("turquoise".toList, "40E0D0".toList),
  ("violet".toList, "EE82EE".toList),
  ("wheat".toList, "F5DEB3".toList),
  ("white".toList, "FFFFFF".toList),
  ("whitesmoke".toList, "F5F5F5".toList),
  ("yellow".toList, "FFFF00".toList),
  ("yellowgreen".toList, "9ACD32".toList)
]

/-- Go map read `htmlColorRGB[k]`: the zero value `""` when the key is
missing. -/
def colorLookup (k : Str) : Str :=
  match htmlColorRGB.find? (fun p => p.1 = k) with
  | some p => p.2
  | none => []

/-- The byte-order switch of `keyFromSub`:
`(v & 0xff0000) >> 16 | v & 0x00ff00 | v & 0x0000ff << 16` on a Go `int64`.
Only the low 24 bits of the two's complement representation reach the three
masks, so the value is taken `mod 2^24` first. -/
def packBGR (v : Int) : Int :=
  let lo := (v.emod (2 ^ 24)).toNat
  (((lo &&& 0xff0000) >>> 16) ||| (lo &&& 0x00ff00) ||| ((lo &&& 0x0000ff) <<< 16) : Nat)

/-- The color loop of `keyFromSub` (sub_station_alpha.go lines 79–101) with
explicit fuel: empty color falls back to the default light gray `0xefefef`;
otherwise strip a leading `#`, try a base-16 parse and switch the byte
order on success, else look the lower-cased name up in `htmlColorRGB` and
loop.  Fuel 3 is enough for every input because table values are valid hex
(see `colorConvert` uses below); the fuel-exhaustion value is unreachable. -/
def colorConvert : Nat → Str → Int
  | 0, _ => 0xefefef
  | fuel + 1, color =>
    if color = [] then 0xefefef
    else
      let color := if color.headD ' ' = '#' then color.tail else color
      match goParseIntHex color with
      | some n => packBGR n
      | none => colorConvert fuel (colorLookup (toLowerStr color))

/-- The color component of the style key computed by `keyFromSub`. -/
def keyColor (c : Str) : Int :=
  colorConvert 3 c

/-- `modelPosToSsaPos`: model position to SSA alignment; the Go map read
yields 0 for `PosNotSpecified` (never queried for it, `keyFromSub` defaults
first). -/
def modelPosToSsaPos : Pos → Int
  | Pos.TopLeft => 5
  | Pos.Top => 6
  | Pos.TopRight => 7
  | Pos.Left => 9
  | Pos.Center => 10
  | Pos.Right => 11
  | Pos.BottomLeft => 1
  | Pos.Bottom => 2
  | Pos.BottomRight => 3
  | Pos.PosNotSpecified => 0

/-- `styleKey` of sub_station_alpha.go: SSA position and color (BBGGRR). -/
structure StyleKey where
  Pos : Int
  Color : Int
deriving DecidableEq, Repr

/-- `keyFromSub` (sub_station_alpha.go lines 72–104). -/
def keyFromSub (s : Subtitle) : StyleKey :=
  let pos := if s.Pos = Pos.PosNotSpecified then Pos.Bottom else s.Pos
  ⟨modelPosToSsaPos pos, keyColor s.Color⟩

/-- Strips one optional leading `#`. -/
def stripHash (c : Str) : Str :=
  if c.headD ' ' = '#' then c.tail else c

/-- Claim C9's description of the color conversion, following the spec's
words: strip an optional leading `#`; attempt a hexadecimal `RRGGBB` parse
(packed in blue-green-red byte order); if that fails, look up the
lower-cased value in the color-name table to obtain a hex string and retry;
if still unresolved, substitute the default light gray `0xefefef`. -/
def specColorConvert (c : Str) : Int :=
  match goParseIntHex (stripHash c) with
  | some v => packBGR v
  | none =>
    match htmlColorRGB.find? (fun p => p.1 = toLowerStr (stripHash c)) with
    | some p =>
      match goParseIntHex (stripHash p.2) with
      | some v => packBGR v
      | none => 0xefefef
    | none => 0xefefef

/-! ## The executor (exec/executor.go) -/

/-- `Executor`: the parameters of one transformation run and the two packs
to operate on.  `float64` parameters are modelled as rationals. -/
structure Executor where
  In : Str
  Out : Str
  In2 : Str
  Out2 : Str
  Concat : Str
  Merge : Bool
  SplitAt : Str
  ShiftBy : Int
  Scale : ℚ
  Lengthen : ℚ
  RemoveHTML : Bool
  RemoveCtrl : Bool
  RemoveHI : Bool
  Pos : Str
  Color : Str
  Stats : Bool
  Modified : Bool
  Sp1 : Option SubsPack
  Sp2 : Option SubsPack
deriving DecidableEq

deriving instance DecidableEq for Except

/-- `parseTime` of the executor: leftmost match of the single-timestamp
pattern; `none` models the returned error. -/
def parseTime (t : Str) : Option Int :=
  (tsSearchOne t).map durOf

/-- `argPosToModelPos`: position argument values to model positions. -/
def argPosToModelPos : List (Str × Pos) := [
  (['T', 'L'], Pos.TopLeft), (['T'], Pos.Top), (['T', 'R'], Pos.TopRight),
  (['L'], Pos.Left), (['C'], Pos.Center), (['R'], Pos.Right),
  (['B', 'L'], Pos.BottomLeft), (['B'], Pos.Bottom), (['B', 'R'], Pos.BottomRight)]

/-- Go map read of `argPosToModelPos` with its `ok` flag. -/
def lookupArgPos (k : Str) : Option Pos :=
  (argPosToModelPos.find? (fun p => p.1 = k)).map (fun p => p.2)

def errNoIn : Str := "Input file must be specified (-in)!".toList

def errNoIn2 : Str := "2nd input file must be specified (-in2)!".toList

def errBadConcat : Str := "Invalid time for concat".toList

def errBadPos : Str := "Invalid pos value".toList

def errBadSplit : Str := "Invalid time for splitAt".toList

def errNoOut : Str := "Output file must be specified (-out)!".toList

def errNoOut2 : Str := "Second output file must be specified (-out2)!".toList

/-- The final output checks of `GearIt` (executor.go lines 226–234) and the
assembly of the returned executor state. -/
def gearFinal (e : Executor) (sp1 : SubsPack) (sp2 : Option SubsPack) (md : Bool) :
    Option (Except Str Executor) :=
  if e.Stats = false ∧ md = true then
    if e.Out = [] then some (Except.error errNoOut)
    else if e.SplitAt ≠ [] ∧ e.Out2 = [] then some (Except.error errNoOut2)
    else some (Except.ok { e with Modified := md, Sp1 := some sp1, Sp2 := sp2 })
  else some (Except.ok { e with Modified := md, Sp1 := some sp1, Sp2 := sp2 })

/-- The `-stats` step: gather statistics (mutating the subtitles; printing
is not modelled; `none` models the `RemoveHI` panic). -/
def gearStats (e : Executor) (sp1 : SubsPack) (sp2 : Option SubsPack) (md : Bool) :
    Option (Except Str Executor) :=
  if e.Stats then
    match statsTouch sp1 with
    | none => none
    | some sp1a => gearFinal e sp1a sp2 md
  else gearFinal e sp1 sp2 md

/-- The `-splitAt` step: split the primary pack, making the new pack the
secondary. -/
def gearSplit (e : Executor) (sp1 : SubsPack) (sp2 : Option SubsPack) (md : Bool) :
    Option (Except Str Executor) :=
  if e.SplitAt ≠ [] then
    match parseTime e.SplitAt with
    | none => some (Except.error errBadSplit)
    | some t => gearStats e (split sp1 t).1 (some (split sp1 t).2) true
  else gearStats e sp1 sp2 md

/-- The `-shiftBy` step (milliseconds). -/
def gearShift (e : Executor) (sp1 : SubsPack) (sp2 : Option SubsPack) (md : Bool) :
    Option (Except Str Executor) :=
  if e.ShiftBy ≠ 0 then gearSplit e (shiftPack sp1 (e.ShiftBy * msec)) sp2 true
  else gearSplit e sp1 sp2 md

/-- The `-scale` step. -/
def gearScale (e : Executor) (sp1 : SubsPack) (sp2 : Option SubsPack) (md : Bool) :
    Option (Except Str Executor) :=
  if e.Scale ≠ 0 then gearShift e (scalePack sp1 e.Scale) sp2 true
  else gearShift e sp1 sp2 md

/-- The `-color` step. -/
def gearColor (e : Executor) (sp1 : SubsPack) (sp2 : Option SubsPack) (md : Bool) :
    Option (Except Str Executor) :=
  if e.Color ≠ [] then gearScale e (setColor sp1 e.Color) sp2 true
  else gearScale e sp1 sp2 md

/-- The `-pos` step; an unknown value is an error. -/
def gearPos (e : Executor) (sp1 : SubsPack) (sp2 : Option SubsPack) (md : Bool) :
    Option (Except Str Executor) :=
  if e.Pos ≠ [] then
    match lookupArgPos e.Pos with
    | none => some (Except.error errBadPos)
    | some p => gearColor e (setPos sp1 p) sp2 true
  else gearColor e sp1 sp2 md

/-- The `-removehtml` step. -/
def gearRemoveHTML (e : Executor) (sp1 : SubsPack) (sp2 : Option SubsPack) (md : Bool) :
    Option (Except Str Executor) :=
  if e.RemoveHTML then gearPos e (removeHTMLPack sp1) sp2 true
  else gearPos e sp1 sp2 md

/-- The `-removehi` step; `none` models the panic on a line that is empty
after HTML stripping. -/
def gearRemoveHI (e : Executor) (sp1 : SubsPack) (sp2 : Option SubsPack) (md : Bool) :
    Option (Except Str Executor) :=
  if e.RemoveHI then
    match removeHIPack sp1 with
    | none => none
    | some sp1a => gearRemoveHTML e sp1a sp2 true
  else gearRemoveHTML e sp1 sp2 md

/-- The `-removectrl` step. -/
def gearRemoveCtrl (e : Executor) (sp1 : SubsPack) (sp2 : Option SubsPack) (md : Bool) :
    Option (Except Str Executor) :=
  if e.RemoveCtrl then gearRemoveHI e (removeControlPack sp1) sp2 true
  else gearRemoveHI e sp1 sp2 md

/-- The `-lengthen` step. -/
def gearLengthen (e : Executor) (sp1 : SubsPack) (sp2 : Option SubsPack) (md : Bool) :
    Option (Except Str Executor) :=
  if e.Lengthen ≠ 0 then gearRemoveCtrl e (lengthenPack sp1 e.Lengthen) sp2 true
  else gearRemoveCtrl e sp1 sp2 md

/-- The `-merge` step.  (In Go the packs share `Subtitle` pointers after a
merge; the value model copies instead — no property below depends on the
sharing.) -/
def gearMerge (e : Executor) (sp1 : SubsPack) (sp2 : Option SubsPack) (md : Bool) :
    Option (Except Str Executor) :=
  if e.Merge then gearLengthen e (merge sp1 (sp2.getD ⟨[]⟩)) sp2 true
  else gearLengthen e sp1 sp2 md

/-- The `-concat` step; an unparsable time is an error.  (The `sp2.getD`
default is unreachable: a missing secondary pack was already rejected.) -/
def gearConcat (e : Executor) (sp1 : SubsPack) (sp2 : Option SubsPack) (md : Bool) :
    Option (Except Str Executor) :=
  if e.Concat ≠ [] then
    match parseTime e.Concat with
    | none => some (Except.error errBadConcat)
    | some t => gearMerge e (concatenate sp1 (sp2.getD ⟨[]⟩) t) sp2 true
  else gearMerge e sp1 sp2 md

/-- `Executor.GearIt` (executor.go lines 122–237): validate the inputs, run
the transformation steps in their fixed order, and perform the final output
checks.  `some (Except.error m)` is a returned error, `some (Except.ok e)`
is a normal return with the updated executor, `none` is a panic. -/
def gearIt (e : Executor) : Option (Except Str Executor) :=
  match e.Sp1 with
  | none => some (Except.error errNoIn)
  | some sp1 =>
    if e.Sp2 = none ∧ (e.Concat ≠ [] ∨ e.Merge = true) then some (Except.error errNoIn2)
    else gearConcat e sp1 e.Sp2 e.Modified

/-- The mutating operations requested from the `-splitAt` step on. -/
def mutReqSplit (e : Executor) : Bool :=
  e.SplitAt ≠ []

/-- The mutating operations requested from the `-shiftBy` step on. -/
def mutReqShift (e : Executor) : Bool :=
  e.ShiftBy ≠ 0 || mutReqSplit e

/-- The mutating operations requested from the `-scale` step on. -/
def mutReqScale (e : Executor) : Bool :=
  e.Scale ≠ 0 || mutReqShift e

/-- The mutating operations requested from the `-color` step on. -/
def mutReqColor (e : Executor) : Bool :=
  e.Color ≠ [] || mutReqScale e

/-- The mutating operations requested from the `-pos` step on. -/
def mutReqPos (e : Executor) : Bool :=
  e.Pos ≠ [] || mutReqColor e

/-- The mutating operations requested from the `-removehtml` step on. -/
def mutReqHTML (e : Executor) : Bool :=
  e.RemoveHTML || mutReqPos e

/-- The mutating operations requested from the `-removehi` step on. -/
def mutReqHI (e : Executor) : Bool :=
  e.RemoveHI || mutReqHTML e

/-- The mutating operations requested from the `-removectrl` step on. -/
def mutReqCtrl (e : Executor) : Bool :=
  e.RemoveCtrl || mutReqHI e

/-- The mutating operations requested from the `-lengthen` step on. -/
def mutReqLengthen (e : Executor) : Bool :=
  e.Lengthen ≠ 0 || mutReqCtrl e

/-- The mutating operations requested from the `-merge` step on. -/
def mutReqMerge (e : Executor) : Bool :=
  e.Merge || mutReqLengthen e

/-- Whether the executor parameters request at least one mutating
operation (the operations that set `e.Modified` in `GearIt`), in the order
the steps run. -/
def mutatingRequested (e : Executor) : Bool :=
  e.Concat ≠ [] || mutReqMerge e

/-! ## Canonical SubRip records (the well-formed inputs of the round-trip
claim) -/

/-- The timestamp line of a canonically rendered record, with the given
millisecond separator. -/
def tsLineOf (sep : Char) (s : Subtitle) : Str :=
  printTimeSep sep s.TimeIn ++ (' ' :: '-' :: '-' :: '>' :: ' ' :: printTimeSep sep s.TimeOut)

/-- The lines of one canonical record: sequence line, timestamp line, text
lines, blank separator. -/
def recordLines (sep : Char) (seq : Str) (s : Subtitle) : List Str :=
  seq :: tsLineOf sep s :: (s.Lines ++ [[]])

/-- Canonically rendered records numbered from `i + 1`, with the given
millisecond separator. -/
def blockLines (sep : Char) (i : Nat) : List Subtitle → List Str
  | [] => []
  | s :: rest => recordLines sep (decDigits (i + 1)) s ++ blockLines sep (i + 1) rest

/-- A well-formed SubRip input, presented by its lines: the canonical
rendering of a list of subtitles, with `,` before the milliseconds. -/
def renderSrtLines (subs : List Subtitle) : List Str :=
  blockLines ',' 0 subs

/-- Joins lines with the Windows-style newline after every line. -/
def crlfJoin : List Str → Str
  | [] => []
  | l :: rest => l ++ '\r' :: '\n' :: crlfJoin rest

/-- A text line that survives a SubRip round trip verbatim: non-empty, free
of newlines, no trailing carriage return, and not starting with whitespace,
`<` or `{` (which would trigger the position/font extensions). -/
def goodLine (l : Str) : Bool :=
  l ≠ [] ∧ ¬ isWs (l.headD ' ') ∧ l.headD ' ' ≠ '<' ∧ l.headD ' ' ≠ '\x7b' ∧
    ¬ l.contains '\n' ∧ l.getLastD ' ' ≠ '\r'

/-- A subtitle representable exactly by a canonical SubRip record: plain
position and color, at least one good line, and timestamps that are whole
milliseconds below 100 hours. -/
def goodSub (s : Subtitle) : Bool :=
  s.Pos = Pos.PosNotSpecified ∧ s.Color = [] ∧ s.Lines ≠ [] ∧ s.Lines.all goodLine ∧
    0 ≤ s.TimeIn ∧ s.TimeIn < 100 * hourd ∧ 0 ≤ s.TimeOut ∧ s.TimeOut < 100 * hourd ∧
    s.TimeIn.tmod msec = 0 ∧ s.TimeOut.tmod msec = 0

/-- Strictly ascending `TimeIn` along a list of subtitles. -/
def ascendingTimeIn : List Subtitle → Bool
  | [] => true
  | [_] => true
  | a :: b :: rest => (a.TimeIn < b.TimeIn) && ascendingTimeIn (b :: rest)

/-- A well-formed pack: good subtitles in strictly ascending `TimeIn` order. -/
def goodPack (subs : List Subtitle) : Bool :=
  subs.all goodSub && ascendingTimeIn subs

/-! ## Concrete instances used by individual claims -/

/-- Pack A of the merge example: one entry at 1s, position unspecified. -/
def c1PackA : SubsPack :=
  ⟨[⟨second, 2 * second, [['A']], Pos.PosNotSpecified, []⟩]⟩

/-- Pack B of the merge example: one entry at 3s, position unspecified. -/
def c1PackB : SubsPack :=
  ⟨[⟨3 * second, 4 * second, [['B']], Pos.PosNotSpecified, []⟩]⟩

/-- A one-record pack for the serialization claim. -/
def c2Pack : SubsPack :=
  ⟨[⟨second, 2 * second, [['H', 'i']], Pos.PosNotSpecified, []⟩]⟩

/-- The round-trip example input of the spec. -/
def c3In : Str :=
  "1\n00:00:01,000 --> 00:00:02,000\nHello\n\n".toList

/-- The model the round-trip example parses to. -/
def c3Pack : SubsPack :=
  ⟨[⟨second, 2 * second, [['H', 'e', 'l', 'l', 'o']], Pos.PosNotSpecified, []⟩]⟩

/-- The subtitles of the round-trip witness. -/
def c3WSubs : List Subtitle :=
  [⟨second, 2 * second, [['H', 'e', 'l', 'l', 'o']], Pos.PosNotSpecified, []⟩]

/-- A sorted two-entry pack for the split witness. -/
def c5Pack : SubsPack :=
  ⟨[⟨second, 2 * second, [['a']], Pos.PosNotSpecified, []⟩,
    ⟨3 * second, 4 * second, [['b']], Pos.PosNotSpecified, []⟩]⟩

/-- A subtitle for the lengthen witness. -/
def c6Sub : Subtitle :=
  ⟨second, 3 * second, [['x']], Pos.PosNotSpecified, []⟩

/-- Packs and an input for the sort-invariant witness. -/
def c7Pack1 : SubsPack :=
  ⟨[⟨3 * second, 4 * second, [['a']], Pos.PosNotSpecified, []⟩]⟩

def c7Pack2 : SubsPack :=
  ⟨[⟨second, 2 * second, [['b']], Pos.PosNotSpecified, []⟩]⟩

def c7In : Str :=
  "1\n00:00:03,000 --> 00:00:04,000\nLate\n\n2\n00:00:01,000 --> 00:00:02,000\nEarly\n\n".toList

/-- A pack whose only line is empty after HTML stripping (`"<i>"`):
`RemoveHI` hits an index out of range on it. -/
def c8Bad : SubsPack :=
  ⟨[⟨0, second, [['<', 'i', '>']], Pos.PosNotSpecified, []⟩]⟩

/-- The witness pack of the remove-HI claim: a sole-line `"[PHONE RINGING]"`
entry (to be deleted) and a plain entry (to be kept). -/
def c8WPack : SubsPack :=
  ⟨[⟨0, second, ["[PHONE RINGING]".toList], Pos.PosNotSpecified, []⟩,
    ⟨2 * second, 3 * second, [['H', 'i']], Pos.PosNotSpecified, []⟩]⟩

/-- A subtitle for the remove-HI safety witness. -/
def c10Sub : Subtitle :=
  ⟨0, second, ["<i>ok</i>".toList], Pos.PosNotSpecified, []⟩

/-- A merge-requesting executor configuration with an output file. -/
def c4E : Executor :=
  { In := ['i'], Out := ['o'], In2 := ['j'], Out2 := [], Concat := [],
    Merge := true, SplitAt := [], ShiftBy := 0, Scale := 0, Lengthen := 0,
    RemoveHTML := false, RemoveCtrl := false, RemoveHI := false,
    Pos := [], Color := [], Stats := false, Modified := false,
    Sp1 := some ⟨[⟨second, 2 * second, [['a']], Pos.PosNotSpecified, []⟩]⟩,
    Sp2 := some ⟨[⟨3 * second, 4 * second, [['b']], Pos.PosNotSpecified, []⟩]⟩ }

/-- The executor state `GearIt` returns for `c4E`. -/
def c4EOut : Executor :=
  { In := ['i'], Out := ['o'], In2 := ['j'], Out2 := [], Concat := [],
    Merge := true, SplitAt := [], ShiftBy := 0, Scale := 0, Lengthen := 0,
    RemoveHTML := false, RemoveCtrl := false, RemoveHI := false,
    Pos := [], Color := [], Stats := false, Modified := true,
    Sp1 := some ⟨[⟨second, 2 * second, [['a']], Pos.Top, []⟩,
                  ⟨3 * second, 4 * second, [['b']], Pos.PosNotSpecified, []⟩]⟩,
    Sp2 := some ⟨[⟨3 * second, 4 * second, [['b']], Pos.PosNotSpecified, []⟩]⟩ }

/-- `c4E` without an output destination. -/
def c4E2 : Executor :=
  { c4E with Out := [] }

/-- A split-requesting executor configuration without a second output. -/
def c4E3 : Executor :=
  { c4E with Merge := false, SplitAt := "00:00:02,000".toList, Out2 := [] }

/-- The sortedness shape of the sort-invariant claim:
`entries[i].timeIn <= entries[i+1].timeIn` for every valid index. -/
def SortedByTimeIn (sp : SubsPack) : Prop :=
  ∀ i, i + 1 < sp.Subs.length →
    (sp.Subs.getD i default).TimeIn ≤ (sp.Subs.getD (i + 1) default).TimeIn

/-! ## Helper lemmas -/

theorem mem_insertBy {x a : Subtitle} {l : List Subtitle} (h : a ∈ insertBy x l) :
    a = x ∨ a ∈ l := by
  induction l with
  | nil => simpa [insertBy] using h
  | cons y ys ih =>
    by_cases hle : leTimeIn x y = true
    · simp only [insertBy, if_pos hle] at h
      simpa using h
    · simp only [insertBy, if_neg hle] at h
      rcases List.mem_cons.mp h with rfl | hm
      · simp
      · rcases ih hm with rfl | hm2
        · simp
        · simp [hm2]

theorem pairwise_insertBy (x : Subtitle) {l : List Subtitle}
    (h : List.Pairwise (fun a b : Subtitle => a.TimeIn ≤ b.TimeIn) l) :
    List.Pairwise (fun a b : Subtitle => a.TimeIn ≤ b.TimeIn) (insertBy x l) := by
  induction l with
  | nil => simp [insertBy]
  | cons y ys ih =>
    rcases List.pairwise_cons.mp h with ⟨hy, hys⟩
    by_cases hle : leTimeIn x y = true
    · simp only [leTimeIn, decide_eq_true_eq] at hle
      rw [insertBy, if_pos (by simp [leTimeIn, hle])]
      refine List.pairwise_cons.mpr ⟨?_, h⟩
      intro b hb
      rcases List.mem_cons.mp hb with rfl | hm
      · exact hle
      · exact hle.trans (hy b hm)
    · simp only [leTimeIn, decide_eq_true_eq] at hle
      rw [insertBy, if_neg (by simp [leTimeIn]; omega)]
      refine List.pairwise_cons.mpr ⟨?_, ih hys⟩
      intro b hb
      rcases mem_insertBy hb with rfl | hm
      · omega
      · exact hy b hm

theorem sortPack_pairwise (sp : SubsPack) :
    List.Pairwise (fun a b : Subtitle => a.TimeIn ≤ b.TimeIn) (sortPack sp).Subs := by
  show List.Pairwise _ (sortSubsList sp.Subs)
  induction sp.Subs with
  | nil => simp [sortSubsList]
  | cons x xs ih => exact pairwise_insertBy x ih

theorem sortSubsList_of_sorted {l : List Subtitle}
    (h : List.Pairwise (fun a b : Subtitle => a.TimeIn ≤ b.TimeIn) l) :
    sortSubsList l = l := by
  induction l with
  | nil => rfl
  | cons x xs ih =>
    rcases List.pairwise_cons.mp h with ⟨hx, hxs⟩
    rw [sortSubsList, ih hxs]
    cases xs with
    | nil => rfl
    | cons y ys =>
      rw [insertBy, if_pos (by simp [leTimeIn]; exact hx y (by simp))]

theorem sortPack_of_sorted (sp : SubsPack)
    (h : List.Pairwise (fun a b : Subtitle => a.TimeIn ≤ b.TimeIn) sp.Subs) :
    sortPack sp = sp := by
  show (⟨sortSubsList sp.Subs⟩ : SubsPack) = sp
  rw [sortSubsList_of_sorted h]

theorem sortPack_sortedBy (sp : SubsPack) : SortedByTimeIn (sortPack sp) := by
  intro i h
  have hp := (List.pairwise_iff_getElem).mp (sortPack_pairwise sp) i (i + 1)
    (by omega) h (by omega)
  rw [List.getD_eq_getElem _ _ (by omega), List.getD_eq_getElem _ _ h]
  exact hp

theorem searchLoop_bounds (f : Nat → Bool) :
    ∀ (d i j : Nat), i ≤ j →
      i ≤ searchLoop f d i j ∧ searchLoop f d i j ≤ j := by
  intro d
  induction d with
  | zero =>
    intro i j h2
    rw [searchLoop]
    omega
  | succ n ih =>
    intro i j h2
    rw [searchLoop]
    by_cases hij : i < j
    · rw [if_pos hij]
      cases hf : f ((i + j) / 2) with
      | true =>
        rw [if_pos rfl]
        have := ih i ((i + j) / 2) (by omega)
        omega
      | false =>
        rw [if_neg Bool.false_ne_true]
        have := ih ((i + j) / 2 + 1) j (by omega)
        omega
    · rw [if_neg hij]
      omega

theorem searchLoop_correct (f : Nat → Bool) (n : Nat)
    (mono : ∀ k1 k2, k1 ≤ k2 → k2 < n → f k1 = true → f k2 = true) :
    ∀ (d i j : Nat), j - i ≤ d → i ≤ j → j ≤ n →
      (∀ k, k < i → f k = false) →
      (∀ k, j ≤ k → k < n → f k = true) →
      (∀ k, k < searchLoop f d i j → f k = false) ∧
        (∀ k, searchLoop f d i j ≤ k → k < n → f k = true) := by
  intro d
  induction d with
  | zero =>
    intro i j h1 h2 h3 hlow hhigh
    rw [searchLoop]
    exact ⟨hlow, fun k hk hkn => hhigh k (by omega) hkn⟩
  | succ n2 ih =>
    intro i j h1 h2 h3 hlow hhigh
    rw [searchLoop]
    by_cases hij : i < j
    · rw [if_pos hij]
      cases hf : f ((i + j) / 2) with
      | true =>
        rw [if_pos rfl]
        refine ih i ((i + j) / 2) (by omega) (by omega) (by omega) hlow ?_
        intro k hk hkn
        exact mono ((i + j) / 2) k hk hkn hf
      | false =>
        rw [if_neg Bool.false_ne_true]
        refine ih ((i + j) / 2 + 1) j (by omega) (by omega) h3 ?_ hhigh
        intro k hk
        by_cases hki : k < i
        · exact hlow k hki
        · by_contra ht
          have hkt : f k = true := by
            cases hfk : f k
            · exact absurd hfk ht
            · rfl
          have := mono k ((i + j) / 2) (by omega) (by omega) hkt
          rw [this] at hf
          exact Bool.noConfusion hf
    · rw [if_neg hij]
      exact ⟨hlow, fun k hk hkn => hhigh k (by omega) hkn⟩

theorem take_drop_filter {α : Type} [Inhabited α] (p : α → Bool) :
    ∀ (l : List α) (idx : Nat), idx ≤ l.length →
      (∀ k, k < idx → p (l.getD k default) = false) →
      (∀ k, idx ≤ k → k < l.length → p (l.getD k default) = true) →
      l.take idx = l.filter (fun x => ! p x) ∧ l.drop idx = l.filter p := by
  intro l
  induction l with
  | nil =>
    intro idx h _ _
    simp at h
    subst h
    simp
  | cons x xs ih =>
    intro idx hle hlow hhigh
    cases idx with
    | zero =>
      have hx : p x = true := by simpa using hhigh 0 (by omega) (by simp)
      have hrest := ih 0 (by omega) (fun k hk => by omega)
        (fun k _ hk => by simpa using hhigh (k + 1) (by omega) (by simpa using hk))
      have h1 := hrest.1
      have h2 := hrest.2
      rw [List.take_zero] at h1
      rw [List.drop_zero] at h2
      refine ⟨?_, ?_⟩
      · rw [List.take_zero, List.filter_cons]
        rw [show (!p x) = false by rw [hx]; rfl]
        simpa using h1
      · rw [List.drop_zero, List.filter_cons, hx]
        simpa using congrArg (fun t => x :: t) h2
    | succ j =>
      have hx : p x = false := by simpa using hlow 0 (by omega)
      have hrest := ih j (by simpa using hle)
        (fun k hk => by simpa using hlow (k + 1) (by omega))
        (fun k h1 h2 => by simpa using hhigh (k + 1) (by omega) (by simpa using h2))
      refine ⟨?_, ?_⟩
      · rw [List.take_succ_cons, List.filter_cons]
        rw [show (!p x) = true by rw [hx]; rfl]
        simpa using congrArg (fun t => x :: t) hrest.1
      · rw [List.drop_succ_cons, List.filter_cons, hx]
        simpa using hrest.2

theorem removeHILines_isSome (ls : List Str) (h : ∀ l ∈ ls, stripTags l ≠ []) :
    (removeHILines ls).isSome = true := by
  induction ls with
  | nil => simp [removeHILines]
  | cons l rest ih =>
    have hrest := ih (fun x hx => h x (by simp [hx]))
    obtain ⟨p, hp⟩ := Option.isSome_iff_exists.mp hrest
    have hl := h l (by simp)
    simp only [removeHILines, hp, Option.bind_eq_bind, Option.some_bind]
    cases hst : stripTags l with
    | nil => exact absurd hst hl
    | cons c more =>
      obtain ⟨a, b⟩ := p
      by_cases hb : hiBracketed c ((c :: more).getLast?.getD ' ') = true
      · simp [hb]
      · simp [hb]

theorem removeHILines_spec (ls : List Str) (h : ∀ l ∈ ls, stripTags l ≠ []) :
    ∃ fl, removeHILines ls = some (ls.filter (fun l => ! specHILine l), fl) := by
  induction ls with
  | nil => exact ⟨false, by simp [removeHILines]⟩
  | cons l rest ih =>
    obtain ⟨fl, hfl⟩ := ih (fun x hx => h x (by simp [hx]))
    have hl := h l (by simp)
    cases hst : stripTags l with
    | nil => exact absurd hst hl
    | cons c more =>
      by_cases hb : hiBracketed c ((c :: more).getLast?.getD ' ') = true
      · refine ⟨true, ?_⟩
        have hspec : specHILine l = true := by
          simp only [specHILine, hst, List.getLastD_eq_getLast?]
          exact hb
        simp [removeHILines, hfl, hst, hb, List.filter_cons, hspec]
      · refine ⟨fl, ?_⟩
        have hspec : specHILine l = false := by
          simp only [specHILine, hst, List.getLastD_eq_getLast?]
          simpa using hb
        simp [removeHILines, hfl, hst, hb, List.filter_cons, hspec]

theorem removeHIPack_go_spec (subs : List Subtitle)
    (h : ∀ s ∈ subs, ∀ l ∈ s.Lines, stripTags l ≠ []) :
    removeHIPack.go subs =
      some ((subs.map
        (fun s => { s with Lines := s.Lines.filter (fun l => ! specHILine l) })).filter
        (fun s => s.Lines ≠ [])) := by
  induction subs with
  | nil => simp [removeHIPack.go]
  | cons s rest ih =>
    have hrest := ih (fun x hx => h x (by simp [hx]))
    obtain ⟨fl, hfl⟩ := removeHILines_spec s.Lines (h s (by simp))
    simp only [removeHIPack.go, hrest, Option.bind_eq_bind, Option.some_bind,
      removeHISub, hfl, List.map_cons, List.filter_cons]
    by_cases he : s.Lines.filter (fun l => ! specHILine l) = []
    · simp [he]
    · simp [he]

/-! ## Claim theorems -/

/-- C1: the claim requires `Merge` to leave the receiver's entries at
position "unspecified" and to put `otherPack`'s entries at "top".  The code
does the opposite of the first half and nothing for the second: it sets the
*receiver's* entries to `Top` (the second `sp.SetPos` call that its comment
says should target the other pack) and never touches `sp2`.  Evaluating the
merge of two one-entry packs: the receiver's entry (sorted first) ends at
`Top`, the other pack's entry stays at `PosNotSpecified`. -/
theorem C1_merge_positions :
    (merge c1PackA c1PackB).Subs.map (fun s => s.Pos) = [Pos.Top, Pos.PosNotSpecified] ∧
      (merge c1PackA c1PackB).Subs.map (fun s => s.Pos) ≠ [Pos.PosNotSpecified, Pos.Top] := by
  constructor
  · decide
  · decide

/-- C2: the claim (and the SubRip format, and the doc example in subrip.go
itself) requires the serialized timestamps to be `HH:MM:SS,mmm` with a
comma.  The code's format string is `"%02d:%02d:%02d.%03d"`: evaluating the
serializer on a one-record pack shows the timestamps are emitted with a
period before the milliseconds (the ` --> ` separator and the zero padding
are as claimed). -/
theorem C2_timestamp_separator :
    writeSrt c2Pack = "1\r\n00:00:01.000 --> 00:00:02.000\r\nHi\r\n\r\n".toList := by
  decide

/-- C5: for a pack sorted ascending by `TimeIn`, `Split(at)` moves exactly
the entries with `timeIn ≥ at` — shifted by `-at`, hence non-negative — to
the new pack, keeps exactly the entries with `timeIn < at` in the receiver,
and every entry lands in exactly one of the two packs. -/
theorem C5_split_partition (sp : SubsPack) (at_ : Int)
    (hs : List.Pairwise (fun a b : Subtitle => a.TimeIn ≤ b.TimeIn) sp.Subs) :
    (split sp at_).1.Subs = sp.Subs.filter (fun s => decide (s.TimeIn < at_)) ∧
      (split sp at_).2.Subs =
        (sp.Subs.filter (fun s => decide (at_ ≤ s.TimeIn))).map (shiftSub (-at_)) ∧
      (split sp at_).1.Subs.length + (split sp at_).2.Subs.length = sp.Subs.length ∧
      (∀ s ∈ (split sp at_).2.Subs, 0 ≤ s.TimeIn) := by
  have mono : ∀ k1 k2, k1 ≤ k2 → k2 < sp.Subs.length →
      (fun i => decide (at_ ≤ (sp.Subs.getD i default).TimeIn)) k1 = true →
      (fun i => decide (at_ ≤ (sp.Subs.getD i default).TimeIn)) k2 = true := by
    intro k1 k2 hk hk2 h1
    simp only [decide_eq_true_eq] at h1 ⊢
    rcases Nat.eq_or_lt_of_le hk with rfl | hlt
    · exact h1
    · have hp := (List.pairwise_iff_getElem).mp hs k1 k2 (by omega) hk2 hlt
      rw [List.getD_eq_getElem sp.Subs default (show k1 < sp.Subs.length by omega)] at h1
      rw [List.getD_eq_getElem sp.Subs default hk2]
      omega
  have hb : 0 ≤ sortSearch sp.Subs.length
        (fun i => decide (at_ ≤ (sp.Subs.getD i default).TimeIn)) ∧
      sortSearch sp.Subs.length
        (fun i => decide (at_ ≤ (sp.Subs.getD i default).TimeIn)) ≤ sp.Subs.length :=
    searchLoop_bounds (fun i => decide (at_ ≤ (sp.Subs.getD i default).TimeIn))
      sp.Subs.length 0 sp.Subs.length (by omega)
  have hc : (∀ k, k < sortSearch sp.Subs.length
        (fun i => decide (at_ ≤ (sp.Subs.getD i default).TimeIn)) →
        decide (at_ ≤ (sp.Subs.getD k default).TimeIn) = false) ∧
      (∀ k, sortSearch sp.Subs.length
        (fun i => decide (at_ ≤ (sp.Subs.getD i default).TimeIn)) ≤ k →
        k < sp.Subs.length → decide (at_ ≤ (sp.Subs.getD k default).TimeIn) = true) :=
    searchLoop_correct (fun i => decide (at_ ≤ (sp.Subs.getD i default).TimeIn))
      sp.Subs.length mono sp.Subs.length 0 sp.Subs.length (by omega) (by omega) (by omega)
      (fun k hk => absurd hk (by omega)) (fun k h1 h2 => absurd h1 (by omega))
  have htd := take_drop_filter (fun s => decide (at_ ≤ s.TimeIn)) sp.Subs
    (sortSearch sp.Subs.length (fun i => decide (at_ ≤ (sp.Subs.getD i default).TimeIn)))
    hb.2 (fun k hk => hc.1 k hk) (fun k hk1 hk2 => hc.2 k hk1 hk2)
  have hfeq : sp.Subs.filter (fun s => ! decide (at_ ≤ s.TimeIn)) =
      sp.Subs.filter (fun s => decide (s.TimeIn < at_)) := by
    refine List.filter_congr ?_
    intro x _
    by_cases h : at_ ≤ x.TimeIn
    · simp [h, show ¬ x.TimeIn < at_ by omega]
    · simp [h, show x.TimeIn < at_ by omega]
  refine ⟨?_, ?_, ?_, ?_⟩
  · show sp.Subs.take _ = _
    rw [htd.1, hfeq]
  · show (sp.Subs.drop _).map (shiftSub (-at_)) = _
    rw [htd.2]
  · show (sp.Subs.take _).length + ((sp.Subs.drop _).map (shiftSub (-at_))).length = _
    have h2 := hb.2
    simp only [List.length_map, List.length_take, List.length_drop]
    omega
  · intro s hmem
    have : s ∈ (sp.Subs.filter (fun s => decide (at_ ≤ s.TimeIn))).map (shiftSub (-at_)) := by
      have h2 : (split sp at_).2.Subs =
          (sp.Subs.filter (fun s => decide (at_ ≤ s.TimeIn))).map (shiftSub (-at_)) := by
        show (sp.Subs.drop _).map (shiftSub (-at_)) = _
        rw [htd.2]
      rw [← h2]
      exact hmem
    obtain ⟨y, hy, rfl⟩ := List.mem_map.mp this
    have := List.of_mem_filter hy
    simp only [decide_eq_true_eq] at this
    simp only [shiftSub]
    omega

/-- C5 witness: splitting a concrete sorted two-entry pack at 2.5s. -/
theorem C5_split_partition_witness :
    List.Pairwise (fun a b : Subtitle => a.TimeIn ≤ b.TimeIn) c5Pack.Subs ∧
      ((split c5Pack (2 * second + second / 2)).1.Subs =
          c5Pack.Subs.filter (fun s => decide (s.TimeIn < 2 * second + second / 2)) ∧
        (split c5Pack (2 * second + second / 2)).2.Subs =
          (c5Pack.Subs.filter
            (fun s => decide (2 * second + second / 2 ≤ s.TimeIn))).map
              (shiftSub (-(2 * second + second / 2))) ∧
        (split c5Pack (2 * second + second / 2)).1.Subs.length +
            (split c5Pack (2 * second + second / 2)).2.Subs.length =
          c5Pack.Subs.length ∧
        (∀ s ∈ (split c5Pack (2 * second + second / 2)).2.Subs, 0 ≤ s.TimeIn)) :=
  ⟨by decide, C5_split_partition c5Pack (2 * second + second / 2) (by decide)⟩

/-- C6: for any factor ≥ 0, after `Lengthen` the subtitle's `TimeIn` is
non-negative and its display duration equals the new duration — the
original display duration times the factor, truncated to an integer —
so the zero clamp never shrinks the duration. -/
theorem C6_lengthen_clamp (s : Subtitle) (factor : ℚ) (hf : 0 ≤ factor) :
    0 ≤ (lengthenSub factor s).TimeIn ∧
      (lengthenSub factor s).TimeOut - (lengthenSub factor s).TimeIn =
        truncQ ((DisplayDuration s : ℚ) * factor) := by
  unfold lengthenSub
  dsimp only
  constructor
  · split
    · omega
    · omega
  · omega

/-- C6 witness: a 2-second subtitle lengthened by the factor 3/2. -/
theorem C6_lengthen_clamp_witness :
    0 ≤ (mkRat 3 2) ∧
      (0 ≤ (lengthenSub (mkRat 3 2) c6Sub).TimeIn ∧
        (lengthenSub (mkRat 3 2) c6Sub).TimeOut - (lengthenSub (mkRat 3 2) c6Sub).TimeIn =
          truncQ ((DisplayDuration c6Sub : ℚ) * mkRat 3 2)) :=
  ⟨by decide, C6_lengthen_clamp c6Sub (mkRat 3 2) (by decide)⟩

/-- C7: after `Concatenate`, `Merge`, or a SubRip parse the pack's entries
satisfy `entries[i].timeIn ≤ entries[i+1].timeIn` for every valid index
(each of the three operations ends by sorting the pack). -/
theorem C7_sort_invariant (sp sp2 : SubsPack) (t : Int) (input : Str) :
    SortedByTimeIn (concatenate sp sp2 t) ∧ SortedByTimeIn (merge sp sp2) ∧
      SortedByTimeIn (readSrt input) := by
  refine ⟨sortPack_sortedBy _, sortPack_sortedBy _, ?_⟩
  show SortedByTimeIn (readSrtLines (splitLines input))
  unfold readSrtLines
  exact sortPack_sortedBy _

/-- C7 witness: concrete unsorted inputs for all three operations. -/
theorem C7_sort_invariant_witness :
    ((concatenate c7Pack1 c7Pack2 0).Subs.getD 0 default).TimeIn ≤
        ((concatenate c7Pack1 c7Pack2 0).Subs.getD 1 default).TimeIn ∧
      ((merge c7Pack1 c7Pack2).Subs.getD 0 default).TimeIn ≤
        ((merge c7Pack1 c7Pack2).Subs.getD 1 default).TimeIn ∧
      ((readSrt c7In).Subs.getD 0 default).TimeIn ≤
        ((readSrt c7In).Subs.getD 1 default).TimeIn := by
  have h := C7_sort_invariant c7Pack1 c7Pack2 0 c7In
  exact ⟨h.1 0 (by decide), h.2.1 0 (by decide), h.2.2 0 (by decide)⟩

/-- C8 counterexample: the claim quantifies over *every* pack, but on a pack
whose only line is `"<i>"` (empty once HTML markup is stripped) `RemoveHI`
panics with an index out of range (`none` in the model) instead of producing
the described pack, which would keep the entry. -/
theorem C8_counterexample : removeHIPack c8Bad ≠ some (specRemoveHI c8Bad) := by
  decide

/-- C8 (amended): for every pack in which each line is non-empty after
stripping HTML-like markup, pack-level `RemoveHI` removes exactly the lines
that — stripped for the purpose of the check only — start with `[` and end
with `]` or start with `(` and end with `)`, and deletes the entries whose
line list became empty. -/
theorem C8_removeHI (sp : SubsPack)
    (h : ∀ s ∈ sp.Subs, ∀ l ∈ s.Lines, stripTags l ≠ []) :
    removeHIPack sp = some (specRemoveHI sp) := by
  unfold removeHIPack specRemoveHI
  rw [removeHIPack_go_spec sp.Subs h]

/-- C8 witness: a pack with a sole-line `"[PHONE RINGING]"` entry (deleted)
and a plain entry (kept). -/
theorem C8_removeHI_witness :
    (∀ s ∈ c8WPack.Subs, ∀ l ∈ s.Lines, stripTags l ≠ []) ∧
      removeHIPack c8WPack = some (specRemoveHI c8WPack) ∧
      specRemoveHI c8WPack = ⟨[⟨2 * second, 3 * second, [['H', 'i']], Pos.PosNotSpecified, []⟩]⟩ :=
  ⟨by decide, C8_removeHI c8WPack (by decide), by decide⟩

/-- C10: if every line of a subtitle is non-empty after deleting all
HTML-tag substrings, `RemoveHI` never indexes out of range: the panic case
(`none`) is unreachable. -/
theorem C10_removeHI_safety (s : Subtitle) (h : ∀ l ∈ s.Lines, stripTags l ≠ []) :
    (removeHISub s).isSome = true := by
  unfold removeHISub
  obtain ⟨p, hp⟩ := Option.isSome_iff_exists.mp (removeHILines_isSome s.Lines h)
  rw [hp]
  rfl

/-- C10 witness: a subtitle whose line keeps text after stripping. -/
theorem C10_removeHI_safety_witness :
    (∀ l ∈ c10Sub.Lines, stripTags l ≠ []) ∧ (removeHISub c10Sub).isSome = true :=
  ⟨by decide, C10_removeHI_safety c10Sub (by decide)⟩

theorem colorConvert_step (fuel : Nat) (c : Str) :
    colorConvert (fuel + 1) c =
      (if c = [] then (0xefefef : Int)
       else
        match goParseIntHex (stripHash c) with
        | some n => packBGR n
        | none => colorConvert fuel (colorLookup (toLowerStr (stripHash c)))) := rfl

set_option maxRecDepth 40000 in
theorem htmlColorRGB_hex :
    ∀ p ∈ htmlColorRGB, p.2 ≠ [] ∧ p.2.headD ' ' ≠ '#' ∧ (goParseIntHex p.2).isSome = true := by
  decide

theorem keyColor_eq_spec (c : Str) : keyColor c = specColorConvert c := by
  have hstep : keyColor c =
      (if c = [] then (0xefefef : Int)
       else
        match goParseIntHex (stripHash c) with
        | some n => packBGR n
        | none => colorConvert 2 (colorLookup (toLowerStr (stripHash c)))) :=
    colorConvert_step 2 c
  rw [hstep]
  by_cases hc : c = []
  · subst hc
    rw [if_pos rfl]
    decide
  · rw [if_neg hc]
    unfold specColorConvert
    cases hparse : goParseIntHex (stripHash c) with
    | some n => rfl
    | none =>
      cases hfind : htmlColorRGB.find? (fun p => p.1 = toLowerStr (stripHash c)) with
      | none =>
        have hcl : colorLookup (toLowerStr (stripHash c)) = [] := by
          unfold colorLookup
          rw [hfind]
        rw [hcl]
        rfl
      | some p =>
        have hcl : colorLookup (toLowerStr (stripHash c)) = p.2 := by
          unfold colorLookup
          rw [hfind]
        obtain ⟨hne, hhash, hsome⟩ := htmlColorRGB_hex p (List.mem_of_find?_eq_some hfind)
        obtain ⟨w, hw⟩ := Option.isSome_iff_exists.mp hsome
        have hstrip : stripHash p.2 = p.2 := by
          unfold stripHash
          rw [if_neg hhash]
        have hconv2 : colorConvert 2 p.2 =
            (if p.2 = [] then (0xefefef : Int)
             else
              match goParseIntHex (stripHash p.2) with
              | some n => packBGR n
              | none => colorConvert 1 (colorLookup (toLowerStr (stripHash p.2)))) :=
          colorConvert_step 1 p.2
        show colorConvert 2 (colorLookup (toLowerStr (stripHash c))) =
          (match goParseIntHex (stripHash p.2) with
           | some v => packBGR v
           | none => (0xefefef : Int))
        rw [hcl, hconv2, if_neg hne, hstrip, hw]

/-- C9: the Alpha-Station color conversion works exactly as the claim
describes — strip an optional leading `#`, try a hexadecimal parse, on
failure look the lower-cased (stripped) value up in the color-name table
and retry, on final failure substitute the default light gray `0xefefef`
without error, with the resolved `RRGGBB` value packed in blue-green-red
byte order — and the color `"red"` resolves to the packed integer
`0x0000FF`. -/
theorem C9_color_conversion :
    (∀ c : Str, keyColor c = specColorConvert c) ∧
      (keyFromSub ⟨0, 0, [], Pos.PosNotSpecified, ['r', 'e', 'd']⟩).Color = 0x0000FF :=
  ⟨keyColor_eq_spec, by decide⟩


theorem gearFinal_ok (e : Executor) (sp1 : SubsPack) (sp2 : Option SubsPack) (md : Bool)
    (eo : Executor) (h : gearFinal e sp1 sp2 md = some (Except.ok eo)) :
    eo.Modified = md := by
  unfold gearFinal at h
  split at h
  · split at h
    · simp at h
    · split at h
      · simp at h
      · simp only [Option.some.injEq, Except.ok.injEq] at h
        rw [← h]
  · simp only [Option.some.injEq, Except.ok.injEq] at h
    rw [← h]

theorem gearFinal_err (e : Executor) (sp1 : SubsPack) (sp2 : Option SubsPack)
    (r : Except Str Executor) (hst : e.Stats = false) (hout : e.Out = [])
    (h : gearFinal e sp1 sp2 true = some r) : r.isOk = false := by
  unfold gearFinal at h
  rw [if_pos ⟨hst, rfl⟩, if_pos hout] at h
  cases h
  rfl

theorem gearFinal_err2 (e : Executor) (sp1 : SubsPack) (sp2 : Option SubsPack)
    (r : Except Str Executor) (hst : e.Stats = false) (hsp : e.SplitAt ≠ [])
    (hout2 : e.Out2 = []) (h : gearFinal e sp1 sp2 true = some r) : r.isOk = false := by
  unfold gearFinal at h
  rw [if_pos ⟨hst, rfl⟩] at h
  split at h
  · cases h
    rfl
  · rw [if_pos ⟨hsp, hout2⟩] at h
    cases h
    rfl

theorem gearStats_ok (e : Executor) (sp1 : SubsPack) (sp2 : Option SubsPack) (md : Bool)
    (eo : Executor) (h : gearStats e sp1 sp2 md = some (Except.ok eo)) :
    eo.Modified = md := by
  unfold gearStats at h
  split at h
  · split at h
    · simp at h
    · exact gearFinal_ok _ _ _ _ _ h
  · exact gearFinal_ok _ _ _ _ _ h

theorem gearStats_err (e : Executor) (sp1 : SubsPack) (sp2 : Option SubsPack)
    (r : Except Str Executor) (hst : e.Stats = false) (hout : e.Out = [])
    (h : gearStats e sp1 sp2 true = some r) : r.isOk = false := by
  unfold gearStats at h
  rw [if_neg (by rw [hst]; exact Bool.false_ne_true)] at h
  exact gearFinal_err _ _ _ _ hst hout h

theorem gearStats_err2 (e : Executor) (sp1 : SubsPack) (sp2 : Option SubsPack)
    (r : Except Str Executor) (hst : e.Stats = false) (hsp : e.SplitAt ≠ [])
    (hout2 : e.Out2 = []) (h : gearStats e sp1 sp2 true = some r) : r.isOk = false := by
  unfold gearStats at h
  rw [if_neg (by rw [hst]; exact Bool.false_ne_true)] at h
  exact gearFinal_err2 _ _ _ _ hst hsp hout2 h

theorem gearSplit_ok (e : Executor) (sp1 : SubsPack) (sp2 : Option SubsPack) (md : Bool)
    (eo : Executor) (h : gearSplit e sp1 sp2 md = some (Except.ok eo)) :
    eo.Modified = (md || mutReqSplit e) := by
  unfold gearSplit at h
  split at h
  next hcond =>
    split at h
    · simp at h
    · have hn := gearStats_ok _ _ _ _ _ h
      rw [hn]
      simp [mutReqSplit, hcond]
  next hcond =>
    have hn := gearStats_ok _ _ _ _ _ h
    rw [hn]
    simp [mutReqSplit, hcond]

theorem gearSplit_err (e : Executor) (sp1 : SubsPack) (sp2 : Option SubsPack) (md : Bool)
    (r : Except Str Executor) (hst : e.Stats = false) (hout : e.Out = [])
    (htrig : (md || mutReqSplit e) = true) (h : gearSplit e sp1 sp2 md = some r) :
    r.isOk = false := by
  unfold gearSplit at h
  split at h
  next hcond =>
    split at h
    · cases h
      rfl
    · exact gearStats_err _ _ _ _ hst hout h
  next hcond =>
    have hmd : md = true := by simpa [mutReqSplit, hcond] using htrig
    subst hmd
    exact gearStats_err _ _ _ _ hst hout h

theorem gearSplit_err2 (e : Executor) (sp1 : SubsPack) (sp2 : Option SubsPack) (md : Bool)
    (r : Except Str Executor) (hst : e.Stats = false) (hsp : e.SplitAt ≠ [])
    (hout2 : e.Out2 = []) (h : gearSplit e sp1 sp2 md = some r) : r.isOk = false := by
  unfold gearSplit at h
  split at h
  next hcond =>
    split at h
    · cases h
      rfl
    · exact gearStats_err2 _ _ _ _ hst hsp hout2 h
  next hcond =>
    exact absurd hsp hcond

theorem gearShift_ok (e : Executor) (sp1 : SubsPack) (sp2 : Option SubsPack) (md : Bool)
    (eo : Executor) (h : gearShift e sp1 sp2 md = some (Except.ok eo)) :
    eo.Modified = (md || mutReqShift e) := by
  unfold gearShift at h
  split at h
  next hcond =>
    have hn := gearSplit_ok _ _ _ _ _ h
    rw [hn]
    simp [mutReqShift, hcond]
  next hcond =>
    have hn := gearSplit_ok _ _ _ _ _ h
    rw [hn]
    simp [mutReqShift, hcond]

theorem gearShift_err (e : Executor) (sp1 : SubsPack) (sp2 : Option SubsPack) (md : Bool)
    (r : Except Str Executor) (hst : e.Stats = false) (hout : e.Out = [])
    (htrig : (md || mutReqShift e) = true) (h : gearShift e sp1 sp2 md = some r) :
    r.isOk = false := by
  unfold gearShift at h
  split at h
  next hcond =>
    exact gearSplit_err _ _ _ _ _ hst hout (by simp) h
  next hcond =>
    exact gearSplit_err _ _ _ _ _ hst hout (by simpa [mutReqShift, hcond] using htrig) h

theorem gearShift_err2 (e : Executor) (sp1 : SubsPack) (sp2 : Option SubsPack) (md : Bool)
    (r : Except Str Executor) (hst : e.Stats = false) (hsp : e.SplitAt ≠ [])
    (hout2 : e.Out2 = []) (h : gearShift e sp1 sp2 md = some r) : r.isOk = false := by
  unfold gearShift at h
  split at h
  next hcond =>
    exact gearSplit_err2 _ _ _ _ _ hst hsp hout2 h
  next hcond =>
    exact gearSplit_err2 _ _ _ _ _ hst hsp hout2 h

theorem gearScale_ok (e : Executor) (sp1 : SubsPack) (sp2 : Option SubsPack) (md : Bool)
    (eo : Executor) (h : gearScale e sp1 sp2 md = some (Except.ok eo)) :
    eo.Modified = (md || mutReqScale e) := by
  unfold gearScale at h
  split at h
  next hcond =>
    have hn := gearShift_ok _ _ _ _ _ h
    rw [hn]
    simp [mutReqScale, hcond]
  next hcond =>
    have hn := gearShift_ok _ _ _ _ _ h
    rw [hn]
    simp [mutReqScale, hcond]

theorem gearScale_err (e : Executor) (sp1 : SubsPack) (sp2 : Option SubsPack) (md : Bool)
    (r : Except Str Executor) (hst : e.Stats = false) (hout : e.Out = [])
    (htrig : (md || mutReqScale e) = true) (h : gearScale e sp1 sp2 md = some r) :
    r.isOk = false := by
  unfold gearScale at h
  split at h
  next hcond =>
    exact gearShift_err _ _ _ _ _ hst hout (by simp) h
  next hcond =>
    exact gearShift_err _ _ _ _ _ hst hout (by simpa [mutReqScale, hcond] using htrig) h

theorem gearScale_err2 (e : Executor) (sp1 : SubsPack) (sp2 : Option SubsPack) (md : Bool)
    (r : Except Str Executor) (hst : e.Stats = false) (hsp : e.SplitAt ≠ [])
    (hout2 : e.Out2 = []) (h : gearScale e sp1 sp2 md = some r) : r.isOk = false := by
  unfold gearScale at h
  split at h
  next hcond =>
    exact gearShift_err2 _ _ _ _ _ hst hsp hout2 h
  next hcond =>
    exact gearShift_err2 _ _ _ _ _ hst hsp hout2 h

theorem gearColor_ok (e : Executor) (sp1 : SubsPack) (sp2 : Option SubsPack) (md : Bool)
    (eo : Executor) (h : gearColor e sp1 sp2 md = some (Except.ok eo)) :
    eo.Modified = (md || mutReqColor e) := by
  unfold gearColor at h
  split at h
  next hcond =>
    have hn := gearScale_ok _ _ _ _ _ h
    rw [hn]
    simp [mutReqColor, hcond]
  next hcond =>
    have hn := gearScale_ok _ _ _ _ _ h
    rw [hn]
    simp [mutReqColor, hcond]

theorem gearColor_err (e : Executor) (sp1 : SubsPack) (sp2 : Option SubsPack) (md : Bool)
    (r : Except Str Executor) (hst : e.Stats = false) (hout : e.Out = [])
    (htrig : (md || mutReqColor e) = true) (h : gearColor e sp1 sp2 md = some r) :
    r.isOk = false := by
  unfold gearColor at h
  split at h
  next hcond =>
    exact gearScale_err _ _ _ _ _ hst hout (by simp) h
  next hcond =>
    exact gearScale_err _ _ _ _ _ hst hout (by simpa [mutReqColor, hcond] using htrig) h

theorem gearColor_err2 (e : Executor) (sp1 : SubsPack) (sp2 : Option SubsPack) (md : Bool)
    (r : Except Str Executor) (hst : e.Stats = false) (hsp : e.SplitAt ≠ [])
    (hout2 : e.Out2 = []) (h : gearColor e sp1 sp2 md = some r) : r.isOk = false := by
  unfold gearColor at h
  split at h
  next hcond =>
    exact gearScale_err2 _ _ _ _ _ hst hsp hout2 h
  next hcond =>
    exact gearScale_err2 _ _ _ _ _ hst hsp hout2 h

theorem gearPos_ok (e : Executor) (sp1 : SubsPack) (sp2 : Option SubsPack) (md : Bool)
    (eo : Executor) (h : gearPos e sp1 sp2 md = some (Except.ok eo)) :
    eo.Modified = (md || mutReqPos e) := by
  unfold gearPos at h
  split at h
  next hcond =>
    split at h
    · simp at h
    · have hn := gearColor_ok _ _ _ _ _ h
      rw [hn]
      simp [mutReqPos, hcond]
  next hcond =>
    have hn := gearColor_ok _ _ _ _ _ h
    rw [hn]
    simp [mutReqPos, hcond]

theorem gearPos_err (e : Executor) (sp1 : SubsPack) (sp2 : Option SubsPack) (md : Bool)
    (r : Except Str Executor) (hst : e.Stats = false) (hout : e.Out = [])
    (htrig : (md || mutReqPos e) = true) (h : gearPos e sp1 sp2 md = some r) :
    r.isOk = false := by
  unfold gearPos at h
  split at h
  next hcond =>
    split at h
    · cases h
      rfl
    · exact gearColor_err _ _ _ _ _ hst hout (by simp) h
  next hcond =>
    exact gearColor_err _ _ _ _ _ hst hout (by simpa [mutReqPos, hcond] using htrig) h

theorem gearPos_err2 (e : Executor) (sp1 : SubsPack) (sp2 : Option SubsPack) (md : Bool)
    (r : Except Str Executor) (hst : e.Stats = false) (hsp : e.SplitAt ≠ [])
    (hout2 : e.Out2 = []) (h : gearPos e sp1 sp2 md = some r) : r.isOk = false := by
  unfold gearPos at h
  split at h
  next hcond =>
    split at h
    · cases h
      rfl
    · exact gearColor_err2 _ _ _ _ _ hst hsp hout2 h
  next hcond =>
    exact gearColor_err2 _ _ _ _ _ hst hsp hout2 h

theorem gearRemoveHTML_ok (e : Executor) (sp1 : SubsPack) (sp2 : Option SubsPack) (md : Bool)
    (eo : Executor) (h : gearRemoveHTML e sp1 sp2 md = some (Except.ok eo)) :
    eo.Modified = (md || mutReqHTML e) := by
  unfold gearRemoveHTML at h
  split at h
  next hcond =>
    have hn := gearPos_ok _ _ _ _ _ h
    rw [hn]
    simp [mutReqHTML, hcond]
  next hcond =>
    have hn := gearPos_ok _ _ _ _ _ h
    rw [hn]
    simp [mutReqHTML, hcond]

theorem gearRemoveHTML_err (e : Executor) (sp1 : SubsPack) (sp2 : Option SubsPack) (md : Bool)
    (r : Except Str Executor) (hst : e.Stats = false) (hout : e.Out = [])
    (htrig : (md || mutReqHTML e) = true) (h : gearRemoveHTML e sp1 sp2 md = some r) :
    r.isOk = false := by
  unfold gearRemoveHTML at h
  split at h
  next hcond =>
    exact gearPos_err _ _ _ _ _ hst hout (by simp) h
  next hcond =>
    exact gearPos_err _ _ _ _ _ hst hout (by simpa [mutReqHTML, hcond] using htrig) h

theorem gearRemoveHTML_err2 (e : Executor) (sp1 : SubsPack) (sp2 : Option SubsPack) (md : Bool)
    (r : Except Str Executor) (hst : e.Stats = false) (hsp : e.SplitAt ≠ [])
    (hout2 : e.Out2 = []) (h : gearRemoveHTML e sp1 sp2 md = some r) : r.isOk = false := by
  unfold gearRemoveHTML at h
  split at h
  next hcond =>
    exact gearPos_err2 _ _ _ _ _ hst hsp hout2 h
  next hcond =>
    exact gearPos_err2 _ _ _ _ _ hst hsp hout2 h

theorem gearRemoveHI_ok (e : Executor) (sp1 : SubsPack) (sp2 : Option SubsPack) (md : Bool)
    (eo : Executor) (h : gearRemoveHI e sp1 sp2 md = some (Except.ok eo)) :
    eo.Modified = (md || mutReqHI e) := by
  unfold gearRemoveHI at h
  split at h
  next hcond =>
    split at h
    · simp at h
    · have hn := gearRemoveHTML_ok _ _ _ _ _ h
      rw [hn]
      simp [mutReqHI, hcond]
  next hcond =>
    have hn := gearRemoveHTML_ok _ _ _ _ _ h
    rw [hn]
    simp [mutReqHI, hcond]

theorem gearRemoveHI_err (e : Executor) (sp1 : SubsPack) (sp2 : Option SubsPack) (md : Bool)
    (r : Except Str Executor) (hst : e.Stats = false) (hout : e.Out = [])
    (htrig : (md || mutReqHI e) = true) (h : gearRemoveHI e sp1 sp2 md = some r) :
    r.isOk = false := by
  unfold gearRemoveHI at h
  split at h
  next hcond =>
    split at h
    · simp at h
    · exact gearRemoveHTML_err _ _ _ _ _ hst hout (by simp) h
  next hcond =>
    exact gearRemoveHTML_err _ _ _ _ _ hst hout (by simpa [mutReqHI, hcond] using htrig) h

theorem gearRemoveHI_err2 (e : Executor) (sp1 : SubsPack) (sp2 : Option SubsPack) (md : Bool)
    (r : Except Str Executor) (hst : e.Stats = false) (hsp : e.SplitAt ≠ [])
    (hout2 : e.Out2 = []) (h : gearRemoveHI e sp1 sp2 md = some r) : r.isOk = false := by
  unfold gearRemoveHI at h
  split at h
  next hcond =>
    split at h
    · simp at h
    · exact gearRemoveHTML_err2 _ _ _ _ _ hst hsp hout2 h
  next hcond =>
    exact gearRemoveHTML_err2 _ _ _ _ _ hst hsp hout2 h

theorem gearRemoveCtrl_ok (e : Executor) (sp1 : SubsPack) (sp2 : Option SubsPack) (md : Bool)
    (eo : Executor) (h : gearRemoveCtrl e sp1 sp2 md = some (Except.ok eo)) :
    eo.Modified = (md || mutReqCtrl e) := by
  unfold gearRemoveCtrl at h
  split at h
  next hcond =>
    have hn := gearRemoveHI_ok _ _ _ _ _ h
    rw [hn]
    simp [mutReqCtrl, hcond]
  next hcond =>
    have hn := gearRemoveHI_ok _ _ _ _ _ h
    rw [hn]
    simp [mutReqCtrl, hcond]

theorem gearRemoveCtrl_err (e : Executor) (sp1 : SubsPack) (sp2 : Option SubsPack) (md : Bool)
    (r : Except Str Executor) (hst : e.Stats = false) (hout : e.Out = [])
    (htrig : (md || mutReqCtrl e) = true) (h : gearRemoveCtrl e sp1 sp2 md = some r) :
    r.isOk = false := by
  unfold gearRemoveCtrl at h
  split at h
  next hcond =>
    exact gearRemoveHI_err _ _ _ _ _ hst hout (by simp) h
  next hcond =>
    exact gearRemoveHI_err _ _ _ _ _ hst hout (by simpa [mutReqCtrl, hcond] using htrig) h

theorem gearRemoveCtrl_err2 (e : Executor) (sp1 : SubsPack) (sp2 : Option SubsPack) (md : Bool)
    (r : Except Str Executor) (hst : e.Stats = false) (hsp : e.SplitAt ≠ [])
    (hout2 : e.Out2 = []) (h : gearRemoveCtrl e sp1 sp2 md = some r) : r.isOk = false := by
  unfold gearRemoveCtrl at h
  split at h
  next hcond =>
    exact gearRemoveHI_err2 _ _ _ _ _ hst hsp hout2 h
  next hcond =>
    exact gearRemoveHI_err2 _ _ _ _ _ hst hsp hout2 h

theorem gearLengthen_ok (e : Executor) (sp1 : SubsPack) (sp2 : Option SubsPack) (md : Bool)
    (eo : Executor) (h : gearLengthen e sp1 sp2 md = some (Except.ok eo)) :
    eo.Modified = (md || mutReqLengthen e) := by
  unfold gearLengthen at h
  split at h
  next hcond =>
    have hn := gearRemoveCtrl_ok _ _ _ _ _ h
    rw [hn]
    simp [mutReqLengthen, hcond]
  next hcond =>
    have hn := gearRemoveCtrl_ok _ _ _ _ _ h
    rw [hn]
    simp [mutReqLengthen, hcond]

theorem gearLengthen_err (e : Executor) (sp1 : SubsPack) (sp2 : Option SubsPack) (md : Bool)
    (r : Except Str Executor) (hst : e.Stats = false) (hout : e.Out = [])
    (htrig : (md || mutReqLengthen e) = true) (h : gearLengthen e sp1 sp2 md = some r) :
    r.isOk = false := by
  unfold gearLengthen at h
  split at h
  next hcond =>
    exact gearRemoveCtrl_err _ _ _ _ _ hst hout (by simp) h
  next hcond =>
    exact gearRemoveCtrl_err _ _ _ _ _ hst hout (by simpa [mutReqLengthen, hcond] using htrig) h

theorem gearLengthen_err2 (e : Executor) (sp1 : SubsPack) (sp2 : Option SubsPack) (md : Bool)
    (r : Except Str Executor) (hst : e.Stats = false) (hsp : e.SplitAt ≠ [])
    (hout2 : e.Out2 = []) (h : gearLengthen e sp1 sp2 md = some r) : r.isOk = false := by
  unfold gearLengthen at h
  split at h
  next hcond =>
    exact gearRemoveCtrl_err2 _ _ _ _ _ hst hsp hout2 h
  next hcond =>
    exact gearRemoveCtrl_err2 _ _ _ _ _ hst hsp hout2 h

theorem gearMerge_ok (e : Executor) (sp1 : SubsPack) (sp2 : Option SubsPack) (md : Bool)
    (eo : Executor) (h : gearMerge e sp1 sp2 md = some (Except.ok eo)) :
    eo.Modified = (md || mutReqMerge e) := by
  unfold gearMerge at h
  split at h
  next hcond =>
    have hn := gearLengthen_ok _ _ _ _ _ h
    rw [hn]
    simp [mutReqMerge, hcond]
  next hcond =>
    have hn := gearLengthen_ok _ _ _ _ _ h
    rw [hn]
    simp [mutReqMerge, hcond]

theorem gearMerge_err (e : Executor) (sp1 : SubsPack) (sp2 : Option SubsPack) (md : Bool)
    (r : Except Str Executor) (hst : e.Stats = false) (hout : e.Out = [])
    (htrig : (md || mutReqMerge e) = true) (h : gearMerge e sp1 sp2 md = some r) :
    r.isOk = false := by
  unfold gearMerge at h
  split at h
  next hcond =>
    exact gearLengthen_err _ _ _ _ _ hst hout (by simp) h
  next hcond =>
    exact gearLengthen_err _ _ _ _ _ hst hout (by simpa [mutReqMerge, hcond] using htrig) h

theorem gearMerge_err2 (e : Executor) (sp1 : SubsPack) (sp2 : Option SubsPack) (md : Bool)
    (r : Except Str Executor) (hst : e.Stats = false) (hsp : e.SplitAt ≠ [])
    (hout2 : e.Out2 = []) (h : gearMerge e sp1 sp2 md = some r) : r.isOk = false := by
  unfold gearMerge at h
  split at h
  next hcond =>
    exact gearLengthen_err2 _ _ _ _ _ hst hsp hout2 h
  next hcond =>
    exact gearLengthen_err2 _ _ _ _ _ hst hsp hout2 h

theorem gearConcat_ok (e : Executor) (sp1 : SubsPack) (sp2 : Option SubsPack) (md : Bool)
    (eo : Executor) (h : gearConcat e sp1 sp2 md = some (Except.ok eo)) :
    eo.Modified = (md || mutatingRequested e) := by
  unfold gearConcat at h
  split at h
  next hcond =>
    split at h
    · simp at h
    · have hn := gearMerge_ok _ _ _ _ _ h
      rw [hn]
      simp [mutatingRequested, hcond]
  next hcond =>
    have hn := gearMerge_ok _ _ _ _ _ h
    rw [hn]
    simp [mutatingRequested, hcond]

theorem gearConcat_err (e : Executor) (sp1 : SubsPack) (sp2 : Option SubsPack) (md : Bool)
    (r : Except Str Executor) (hst : e.Stats = false) (hout : e.Out = [])
    (htrig : (md || mutatingRequested e) = true) (h : gearConcat e sp1 sp2 md = some r) :
    r.isOk = false := by
  unfold gearConcat at h
  split at h
  next hcond =>
    split at h
    · cases h
      rfl
    · exact gearMerge_err _ _ _ _ _ hst hout (by simp) h
  next hcond =>
    exact gearMerge_err _ _ _ _ _ hst hout (by simpa [mutatingRequested, hcond] using htrig) h

theorem gearConcat_err2 (e : Executor) (sp1 : SubsPack) (sp2 : Option SubsPack) (md : Bool)
    (r : Except Str Executor) (hst : e.Stats = false) (hsp : e.SplitAt ≠ [])
    (hout2 : e.Out2 = []) (h : gearConcat e sp1 sp2 md = some r) : r.isOk = false := by
  unfold gearConcat at h
  split at h
  next hcond =>
    split at h
    · cases h
      rfl
    · exact gearMerge_err2 _ _ _ _ _ hst hsp hout2 h
  next hcond =>
    exact gearMerge_err2 _ _ _ _ _ hst hsp hout2 h

/-- C4: `GearIt` tracks in `Modified` whether any mutating operation
actually ran (on a normal return, `Modified` is the old flag or-ed with the
requested mutating operations, all of which then ran); when stats was not
the terminal action and a mutating operation was requested while no output
destination was specified, a returning `GearIt` returns an error; and when
split was requested without a second output destination (stats not
terminal), a returning `GearIt` returns an error. -/
theorem C4_gearIt_checks :
    ∀ (e : Executor) (eo : Executor) (r : Except Str Executor),
      (gearIt e = some (Except.ok eo) → eo.Modified = (e.Modified || mutatingRequested e)) ∧
        (e.Stats = false → mutatingRequested e = true → e.Out = [] →
          gearIt e = some r → r.isOk = false) ∧
        (e.Stats = false → e.SplitAt ≠ [] → e.Out2 = [] →
          gearIt e = some r → r.isOk = false) := by
  intro e eo r
  refine ⟨?_, ?_, ?_⟩
  · intro h
    unfold gearIt at h
    split at h
    · simp at h
    · split at h
      · simp at h
      · exact gearConcat_ok _ _ _ _ _ h
  · intro hst htrig hout h
    unfold gearIt at h
    split at h
    · cases h
      rfl
    · split at h
      · cases h
        rfl
      · exact gearConcat_err _ _ _ _ _ hst hout (by simp [htrig]) h
  · intro hst hsp hout2 h
    unfold gearIt at h
    split at h
    · cases h
      rfl
    · split at h
      · cases h
        rfl
      · exact gearConcat_err2 _ _ _ _ _ hst hsp hout2 h

/-- C4 witness: a merge run returns ok with `Modified` set; without `-out`
it returns the missing-output error; a split request without `-out2`
returns the missing-second-output error. -/
theorem C4_gearIt_checks_witness :
    (gearIt c4E = some (Except.ok c4EOut) ∧
      c4EOut.Modified = (c4E.Modified || mutatingRequested c4E)) ∧
      (gearIt c4E2 = some (Except.error errNoOut) ∧
        (Except.error errNoOut : Except Str Executor).isOk = false) ∧
      (gearIt c4E3 = some (Except.error errNoOut2) ∧
        (Except.error errNoOut2 : Except Str Executor).isOk = false) :=
  ⟨⟨by decide, (C4_gearIt_checks c4E c4EOut (Except.ok c4EOut)).1 (by decide)⟩,
    ⟨by decide, (C4_gearIt_checks c4E2 c4EOut (Except.error errNoOut)).2.1
      (by decide) (by decide) (by decide) (by decide)⟩,
    ⟨by decide, (C4_gearIt_checks c4E3 c4EOut (Except.error errNoOut2)).2.2
      (by decide) (by decide) (by decide) (by decide)⟩⟩

/-! ## Round-trip helper lemmas: digits and timestamp rendering -/

theorem digit_facts : ∀ d, d < 10 →
    (isDigitC (digitChar d) = true ∧ digitVal (digitChar d) = d ∧
      isWs (digitChar d) = false ∧ digitChar d ≠ '\n' ∧ digitChar d ≠ '\r' ∧
      digitChar d ≠ '﻿' ∧ digitChar d ≠ '<' ∧ digitChar d ≠ '\x7b') := by
  decide

theorem decDigitsAux_ne_nil : ∀ (fuel n : Nat) (acc : List Char),
    decDigitsAux fuel n acc ≠ [] := by
  intro fuel
  induction fuel with
  | zero =>
    intro n acc
    simp [decDigitsAux]
  | succ f ih =>
    intro n acc
    rw [decDigitsAux]
    split
    · simp
    · exact ih _ _

theorem decDigits_ne_nil (n : Nat) : decDigits n ≠ [] :=
  decDigitsAux_ne_nil n n []

theorem decDigitsAux_digits : ∀ (fuel n : Nat) (acc : List Char),
    n < 10 ^ (fuel + 1) → (∀ c ∈ acc, isDigitC c = true) →
    ∀ c ∈ decDigitsAux fuel n acc, isDigitC c = true := by
  intro fuel
  induction fuel with
  | zero =>
    intro n acc hn hacc c hc
    rw [decDigitsAux] at hc
    rcases List.mem_cons.mp hc with rfl | hm
    · exact (digit_facts n (by simpa using hn)).1
    · exact hacc c hm
  | succ f ih =>
    intro n acc hn hacc c hc
    rw [decDigitsAux] at hc
    split at hc
    next h10 =>
      rcases List.mem_cons.mp hc with rfl | hm
      · exact (digit_facts n h10).1
      · exact hacc c hm
    next h10 =>
      refine ih (n / 10) _ ?_ ?_ c hc
      · have hp : (10 : Nat) ^ (f + 1 + 1) = 10 ^ (f + 1) * 10 := by ring
        rw [hp] at hn
        omega
      · intro x hx
        rcases List.mem_cons.mp hx with rfl | hm
        · exact (digit_facts (n % 10) (by omega)).1
        · exact hacc x hm

theorem decDigits_digits (n : Nat) : ∀ c ∈ decDigits n, isDigitC c = true := by
  refine decDigitsAux_digits n n [] ?_ (by simp)
  calc n < 10 ^ n := Nat.lt_pow_self (by omega) n
    _ ≤ 10 ^ (n + 1) := Nat.pow_le_pow_right (by omega) (by omega)

theorem decDigits_lt10 {n : Nat} (h : n < 10) : decDigits n = [digitChar n] := by
  unfold decDigits
  cases n with
  | zero => rfl
  | succ m =>
    rw [decDigitsAux, if_pos h]

theorem decDigits_2digit {n : Nat} (h1 : 10 ≤ n) (h2 : n < 100) :
    decDigits n = [digitChar (n / 10), digitChar (n % 10)] := by
  unfold decDigits
  obtain ⟨k, rfl⟩ : ∃ k, n = k + 1 := ⟨n - 1, by omega⟩
  rw [decDigitsAux, if_neg (by omega)]
  obtain ⟨j, rfl⟩ : ∃ j, k = j + 1 := ⟨k - 1, by omega⟩
  rw [decDigitsAux, if_pos (by omega)]

theorem decDigits_3digit {n : Nat} (h1 : 100 ≤ n) (h2 : n < 1000) :
    decDigits n = [digitChar (n / 100), digitChar (n / 10 % 10), digitChar (n % 10)] := by
  unfold decDigits
  obtain ⟨k, rfl⟩ : ∃ k, n = k + 1 := ⟨n - 1, by omega⟩
  rw [decDigitsAux, if_neg (by omega)]
  obtain ⟨j, rfl⟩ : ∃ j, k = j + 1 := ⟨k - 1, by omega⟩
  rw [decDigitsAux, if_neg (by omega)]
  obtain ⟨i, rfl⟩ : ∃ i, j = i + 1 := ⟨j - 1, by omega⟩
  rw [decDigitsAux, if_pos (by omega)]
  have ha : (i + 1 + 1 + 1) / 10 / 10 = (i + 1 + 1 + 1) / 100 := by omega
  rw [ha]

theorem pad0_2_eq {h : Int} (h0 : 0 ≤ h) (h99 : h < 100) :
    pad0 2 h = [digitChar (h.toNat / 10), digitChar (h.toNat % 10)] := by
  have hn : h.natAbs = h.toNat := by omega
  unfold pad0
  rw [if_neg (by omega)]
  by_cases hlt : h.natAbs < 10
  · rw [decDigits_lt10 hlt, hn]
    have e1 : h.toNat / 10 = 0 := by omega
    have e2 : h.toNat % 10 = h.toNat := by omega
    rw [e1, e2]
    rfl
  · rw [decDigits_2digit (by omega) (by omega), hn]
    rfl

theorem pad0_3_eq {h : Int} (h0 : 0 ≤ h) (h999 : h < 1000) :
    pad0 3 h =
      [digitChar (h.toNat / 100), digitChar (h.toNat / 10 % 10), digitChar (h.toNat % 10)] := by
  have hn : h.natAbs = h.toNat := by omega
  unfold pad0
  rw [if_neg (by omega)]
  by_cases hlt : h.natAbs < 10
  · rw [decDigits_lt10 hlt, hn]
    have e1 : h.toNat / 100 = 0 := by omega
    have e2 : h.toNat / 10 % 10 = 0 := by omega
    have e3 : h.toNat % 10 = h.toNat := by omega
    rw [e1, e2, e3]
    rfl
  · by_cases hlt2 : h.natAbs < 100
    · rw [decDigits_2digit (by omega) (by omega), hn]
      have e1 : h.toNat / 100 = 0 := by omega
      have e2 : h.toNat / 10 % 10 = h.toNat / 10 := by omega
      rw [e1, e2]
      rfl
    · rw [decDigits_3digit (by omega) (by omega), hn]
      rfl

theorem tdiv_tmod_to_e (t : Int) (h0 : 0 ≤ t) :
    t.tdiv hourd = t / hourd ∧ t.tmod hourd = t % hourd ∧
      (t.tmod hourd).tdiv minute = (t % hourd) / minute ∧
      (t.tmod minute).tdiv second = (t % minute) / second ∧
      (t.tmod second).tdiv msec = (t % second) / msec ∧
      t.tmod minute = t % minute ∧ t.tmod second = t % second := by
  have hhd : (0 : Int) ≤ hourd := by norm_num [hourd]
  have hmin : (0 : Int) ≤ minute := by norm_num [minute]
  have hsec : (0 : Int) ≤ second := by norm_num [second]
  have hms : (0 : Int) ≤ msec := by norm_num [msec]
  refine ⟨Int.tdiv_eq_ediv h0 hhd, Int.tmod_eq_emod h0 hhd, ?_, ?_, ?_,
    Int.tmod_eq_emod h0 hmin, Int.tmod_eq_emod h0 hsec⟩
  · rw [Int.tmod_eq_emod h0 hhd]
    exact Int.tdiv_eq_ediv (Int.emod_nonneg t (by norm_num [hourd])) hmin
  · rw [Int.tmod_eq_emod h0 hmin]
    exact Int.tdiv_eq_ediv (Int.emod_nonneg t (by norm_num [minute])) hsec
  · rw [Int.tmod_eq_emod h0 hsec]
    exact Int.tdiv_eq_ediv (Int.emod_nonneg t (by norm_num [second])) hms

theorem readDigit2_digits (a b : Nat) (ha : a < 10) (hb : b < 10) (rest : Str) :
    readDigit2 (digitChar a :: digitChar b :: rest) = some (a * 10 + b, rest) := by
  simp only [readDigit2]
  rw [if_pos ⟨(digit_facts a ha).1, (digit_facts b hb).1⟩,
    (digit_facts a ha).2.1, (digit_facts b hb).2.1]

theorem readDigit3_digits (a b c : Nat) (ha : a < 10) (hb : b < 10) (hc : c < 10) (rest : Str) :
    readDigit3 (digitChar a :: digitChar b :: digitChar c :: rest) =
      some (a * 100 + b * 10 + c, rest) := by
  simp only [readDigit3]
  rw [if_pos ⟨(digit_facts a ha).1, (digit_facts b hb).1, (digit_facts c hc).1⟩,
    (digit_facts a ha).2.1, (digit_facts b hb).2.1, (digit_facts c hc).2.1]

theorem expectChar_cons (c : Char) (r : Str) : expectChar c (c :: r) = some r := by
  simp [expectChar]

theorem tsOnce_print (sep : Char) (hsep : sep = ',' ∨ sep = '.') (t : Int)
    (h0 : 0 ≤ t) (hlt : t < 100 * hourd) (rest : Str) :
    tsOnce (printTimeSep sep t ++ rest) =
      some (((t.tdiv hourd).toNat, ((t.tmod hourd).tdiv minute).toNat,
        ((t.tmod minute).tdiv second).toNat, ((t.tmod second).tdiv msec).toNat), rest) := by
  obtain ⟨e1, e2, e3, e4, e5, e6, e7⟩ := tdiv_tmod_to_e t h0
  have b1 : 0 ≤ t / hourd ∧ t / hourd < 100 := by
    simp only [hourd] at hlt ⊢
    omega
  have b2 : 0 ≤ (t % hourd) / minute ∧ (t % hourd) / minute < 100 := by
    simp only [hourd, minute]
    omega
  have b3 : 0 ≤ (t % minute) / second ∧ (t % minute) / second < 100 := by
    simp only [minute, second]
    omega
  have b4 : 0 ≤ (t % second) / msec ∧ (t % second) / msec < 1000 := by
    simp only [second, msec]
    omega
  rw [printTimeSep, e1, e3, e4, e5]
  rw [pad0_2_eq b1.1 b1.2, pad0_2_eq b2.1 b2.2, pad0_2_eq b3.1 b3.2, pad0_3_eq b4.1 b4.2]
  simp only [List.cons_append, List.append_assoc, List.nil_append]
  rw [tsOnce]
  rw [readDigit2_digits _ _ (by omega) (by omega)]
  simp only [Option.bind_eq_bind, Option.some_bind]
  rw [expectChar_cons]
  simp only [Option.some_bind]
  rw [readDigit2_digits _ _ (by omega) (by omega)]
  simp only [Option.some_bind]
  rw [expectChar_cons]
  simp only [Option.some_bind]
  rw [readDigit2_digits _ _ (by omega) (by omega)]
  simp only [Option.some_bind]
  rw [if_pos hsep]
  rw [readDigit3_digits _ _ _ (by omega) (by omega) (by omega)]
  simp only [Option.some_bind, Option.some.injEq, Prod.mk.injEq]
  refine ⟨⟨by omega, by omega, by omega, by omega⟩, trivial⟩

theorem tsPairAt_tsLine (sep : Char) (hsep : sep = ',' ∨ sep = '.') (t1 t2 : Int)
    (h01 : 0 ≤ t1) (hlt1 : t1 < 100 * hourd) (h02 : 0 ≤ t2) (hlt2 : t2 < 100 * hourd)
    (s : Subtitle) (hin : s.TimeIn = t1) (hout : s.TimeOut = t2) :
    tsPairAt (tsLineOf sep s) =
      some (((t1.tdiv hourd).toNat, ((t1.tmod hourd).tdiv minute).toNat,
        ((t1.tmod minute).tdiv second).toNat, ((t1.tmod second).tdiv msec).toNat),
        ((t2.tdiv hourd).toNat, ((t2.tmod hourd).tdiv minute).toNat,
        ((t2.tmod minute).tdiv second).toNat, ((t2.tmod second).tdiv msec).toNat)) := by
  rw [tsPairAt, tsLineOf, hin, hout]
  rw [tsOnce_print sep hsep t1 h01 hlt1]
  simp only [Option.bind_eq_bind, Option.some_bind]
  have hws : (' ' :: '-' :: '-' :: '>' :: ' ' :: printTimeSep sep t2).dropWhile isWs =
      '-' :: '-' :: '>' :: ' ' :: printTimeSep sep t2 := by
    rw [List.dropWhile_cons_of_pos (by decide), List.dropWhile_cons_of_neg (by decide)]
  rw [hws]
  rw [List.takeWhile_cons_of_pos (by decide), List.takeWhile_cons_of_pos (by decide),
    List.takeWhile_cons_of_neg (by decide)]
  rw [if_neg (by simp)]
  rw [List.dropWhile_cons_of_pos (by decide), List.dropWhile_cons_of_pos (by decide),
    List.dropWhile_cons_of_neg (by decide)]
  rw [expectChar_cons]
  simp only [Option.some_bind]
  rw [List.dropWhile_cons_of_pos (by decide)]
  have hnws : (printTimeSep sep t2).dropWhile isWs = printTimeSep sep t2 := by
    obtain ⟨e1, _⟩ := tdiv_tmod_to_e t2 h02
    have b1 : 0 ≤ t2 / hourd ∧ t2 / hourd < 100 := by
      simp only [hourd] at hlt2 ⊢
      omega
    rw [printTimeSep, e1, pad0_2_eq b1.1 b1.2]
    simp only [List.cons_append]
    rw [List.dropWhile_cons_of_neg]
    rw [(digit_facts ((t2 / hourd).toNat / 10) (by omega)).2.2.1]
    simp
  rw [hnws]
  rw [show printTimeSep sep t2 = printTimeSep sep t2 ++ ([] : Str) by simp]
  rw [tsOnce_print sep hsep t2 h02 hlt2]
  simp

theorem durOf_decompose (t : Int) (h0 : 0 ≤ t) (hlt : t < 100 * hourd)
    (hms : t.tmod msec = 0) :
    durOf ((t.tdiv hourd).toNat, ((t.tmod hourd).tdiv minute).toNat,
      ((t.tmod minute).tdiv second).toNat, ((t.tmod second).tdiv msec).toNat) = t := by
  obtain ⟨e1, e2, e3, e4, e5, e6, e7⟩ := tdiv_tmod_to_e t h0
  have hmse : t % msec = 0 := by
    rw [← Int.tmod_eq_emod h0 (by norm_num [msec])]
    exact hms
  rw [durOf]
  simp only [e1, e3, e4, e5]
  rw [Int.toNat_of_nonneg (by simp only [hourd] at hlt ⊢; omega),
    Int.toNat_of_nonneg (by simp only [hourd, minute]; omega),
    Int.toNat_of_nonneg (by simp only [minute, second]; omega),
    Int.toNat_of_nonneg (by simp only [second, msec]; omega)]
  simp only [hourd, minute, second, msec] at *
  omega

theorem tsLineOf_ne_nil (sep : Char) (s : Subtitle) : tsLineOf sep s ≠ [] := by
  simp [tsLineOf]

theorem tsSearch_tsLine (sep : Char) (hsep : sep = ',' ∨ sep = '.') (t1 t2 : Int)
    (h01 : 0 ≤ t1) (hlt1 : t1 < 100 * hourd) (h02 : 0 ≤ t2) (hlt2 : t2 < 100 * hourd)
    (s : Subtitle) (hin : s.TimeIn = t1) (hout : s.TimeOut = t2) :
    tsSearch (tsLineOf sep s) =
      some (((t1.tdiv hourd).toNat, ((t1.tmod hourd).tdiv minute).toNat,
        ((t1.tmod minute).tdiv second).toNat, ((t1.tmod second).tdiv msec).toNat),
        ((t2.tdiv hourd).toNat, ((t2.tmod hourd).tdiv minute).toNat,
        ((t2.tmod minute).tdiv second).toNat, ((t2.tmod second).tdiv msec).toNat)) := by
  have hpair := tsPairAt_tsLine sep hsep t1 t2 h01 hlt1 h02 hlt2 s hin hout
  rcases hcons : tsLineOf sep s with _ | ⟨c, rest⟩
  · exact absurd hcons (tsLineOf_ne_nil sep s)
  · rw [hcons] at hpair
    rw [tsSearch, hpair]

theorem parseTimestamps_tsLine (sep : Char) (hsep : sep = ',' ∨ sep = '.') (s s0 : Subtitle)
    (h01 : 0 ≤ s.TimeIn) (hlt1 : s.TimeIn < 100 * hourd)
    (h02 : 0 ≤ s.TimeOut) (hlt2 : s.TimeOut < 100 * hourd)
    (hm1 : s.TimeIn.tmod msec = 0) (hm2 : s.TimeOut.tmod msec = 0) :
    parseTimestamps s0 (tsLineOf sep s) =
      { s0 with TimeIn := s.TimeIn, TimeOut := s.TimeOut } := by
  rw [parseTimestamps,
    tsSearch_tsLine sep hsep s.TimeIn s.TimeOut h01 hlt1 h02 hlt2 s rfl rfl]
  simp only [durOf_decompose s.TimeIn h01 hlt1 hm1, durOf_decompose s.TimeOut h02 hlt2 hm2]

theorem isDigitC_ne {c : Char} (h : isDigitC c = true) : c ≠ '\n' ∧ c ≠ '\r' := by
  constructor
  · rintro rfl
    exact absurd h (by decide)
  · rintro rfl
    exact absurd h (by decide)

theorem contains_false {l : Str} {a : Char} (h : ∀ c ∈ l, c ≠ a) : l.contains a = false := by
  have hm : a ∉ l := fun hmem => h a hmem rfl
  simpa using hm

theorem getLastD_mem : ∀ {l : Str}, l ≠ [] → ∀ (d : Char), l.getLastD d ∈ l := by
  intro l
  induction l with
  | nil => intro h; exact absurd rfl h
  | cons c cs ih =>
    intro _ d
    rw [List.getLastD_cons]
    cases hcs : cs with
    | nil => simp [List.getLastD]
    | cons x xs =>
      have := ih (by simp [hcs]) c
      rw [hcs] at this
      exact List.mem_cons_of_mem c this

theorem getLastD_irrel {b : Str} (h : b ≠ []) (d d' : Char) :
    b.getLastD d = b.getLastD d' := by
  cases b with
  | nil => exact absurd rfl h
  | cons x xs => rfl

theorem getLastD_append {a b : Str} (h : b ≠ []) (d : Char) :
    (a ++ b).getLastD d = b.getLastD d := by
  induction a generalizing d with
  | nil => rfl
  | cons c as ih =>
    rw [List.cons_append, List.getLastD_cons, ih c]
    exact getLastD_irrel h c d

theorem pad0_chars (w : Nat) (n : Int) : ∀ c ∈ pad0 w n, c ≠ '\n' ∧ c ≠ '\r' := by
  intro c hc
  rw [pad0] at hc
  have hdig : ∀ c ∈ decDigits n.natAbs, c ≠ '\n' ∧ c ≠ '\r' :=
    fun c hc => isDigitC_ne (decDigits_digits n.natAbs c hc)
  split at hc
  · rcases List.mem_cons.mp hc with rfl | hm
    · exact ⟨by decide, by decide⟩
    · rcases List.mem_append.mp hm with hr | hd
      · rw [List.eq_of_mem_replicate hr]
        exact ⟨by decide, by decide⟩
      · exact hdig c hd
  · rcases List.mem_append.mp hc with hr | hd
    · rw [List.eq_of_mem_replicate hr]
      exact ⟨by decide, by decide⟩
    · exact hdig c hd

theorem pad0_ne_nil (w : Nat) (n : Int) : pad0 w n ≠ [] := by
  rw [pad0]
  split
  · simp
  · intro h
    rcases List.append_eq_nil.mp h with ⟨_, h2⟩
    exact decDigits_ne_nil _ h2

theorem printTimeSep_chars {sep : Char} (hsep : sep = ',' ∨ sep = '.') (t : Int) :
    ∀ c ∈ printTimeSep sep t, c ≠ '\n' ∧ c ≠ '\r' := by
  intro c hc
  rw [printTimeSep] at hc
  have hcolon : (':' : Char) ≠ '\n' ∧ (':' : Char) ≠ '\r' := ⟨by decide, by decide⟩
  have hsepc : sep ≠ '\n' ∧ sep ≠ '\r' := by
    rcases hsep with rfl | rfl
    · exact ⟨by decide, by decide⟩
    · exact ⟨by decide, by decide⟩
  simp only [List.append_assoc] at hc
  rcases List.mem_append.mp hc with h1 | h2
  · exact pad0_chars _ _ c h1
  rcases List.mem_cons.mp h2 with rfl | h3
  · exact hcolon
  rcases List.mem_append.mp h3 with h4 | h5
  · exact pad0_chars _ _ c h4
  rcases List.mem_cons.mp h5 with rfl | h6
  · exact hcolon
  rcases List.mem_append.mp h6 with h7 | h8
  · exact pad0_chars _ _ c h7
  rcases List.mem_cons.mp h8 with rfl | h9
  · exact hsepc
  · exact pad0_chars _ _ c h9

theorem tsLineOf_chars {sep : Char} (hsep : sep = ',' ∨ sep = '.') (s : Subtitle) :
    ∀ c ∈ tsLineOf sep s, c ≠ '\n' ∧ c ≠ '\r' := by
  intro c hc
  rw [tsLineOf] at hc
  rcases List.mem_append.mp hc with h1 | h2
  · exact printTimeSep_chars hsep _ c h1
  · rcases List.mem_cons.mp h2 with rfl | h3
    · exact ⟨by decide, by decide⟩
    rcases List.mem_cons.mp h3 with rfl | h4
    · exact ⟨by decide, by decide⟩
    rcases List.mem_cons.mp h4 with rfl | h5
    · exact ⟨by decide, by decide⟩
    rcases List.mem_cons.mp h5 with rfl | h6
    · exact ⟨by decide, by decide⟩
    rcases List.mem_cons.mp h6 with rfl | h7
    · exact ⟨by decide, by decide⟩
    · exact printTimeSep_chars hsep _ c h7

theorem decDigits_headD_digit (n : Nat) : isDigitC ((decDigits n).headD ' ') = true := by
  rcases h : decDigits n with _ | ⟨c, cs⟩
  · exact absurd h (decDigits_ne_nil n)
  · have hm := decDigits_digits n c (by rw [h]; simp)
    simpa using hm

theorem stripBOM_of_digit {l : Str} (h : isDigitC (l.headD ' ') = true) :
    stripBOM l = l := by
  rw [stripBOM, if_neg]
  intro he
  rw [he] at h
  exact absurd h (by decide)

theorem takeWhile_append_of_all {p : Char → Bool} {l1 : Str} (l2 : Str)
    (h : ∀ c ∈ l1, p c = true) : (l1 ++ l2).takeWhile p = l1 ++ l2.takeWhile p := by
  induction l1 with
  | nil => rfl
  | cons c cs ih =>
    rw [List.cons_append, List.takeWhile_cons_of_pos (h c (by simp)), List.cons_append,
      ih (fun x hx => h x (by simp [hx]))]

theorem dropWhile_append_of_all {p : Char → Bool} {l1 : Str} (l2 : Str)
    (h : ∀ c ∈ l1, p c = true) : (l1 ++ l2).dropWhile p = l2.dropWhile p := by
  induction l1 with
  | nil => rfl
  | cons c cs ih =>
    rw [List.cons_append, List.dropWhile_cons_of_pos (h c (by simp)),
      ih (fun x hx => h x (by simp [hx]))]

theorem goodLine_parts {l : Str} (h : goodLine l = true) :
    l ≠ [] ∧ isWs (l.headD ' ') = false ∧ l.headD ' ' ≠ '<' ∧ l.headD ' ' ≠ '\x7b' ∧
      l.contains '\n' = false ∧ l.getLastD ' ' ≠ '\r' := by
  rw [goodLine] at h
  simp only [decide_eq_true_eq, Bool.and_eq_true, Bool.not_eq_true] at h
  tauto

theorem goodSub_parts {s : Subtitle} (h : goodSub s = true) :
    s.Pos = Pos.PosNotSpecified ∧ s.Color = [] ∧ s.Lines ≠ [] ∧
      (∀ l ∈ s.Lines, goodLine l = true) ∧ 0 ≤ s.TimeIn ∧ s.TimeIn < 100 * hourd ∧
      0 ≤ s.TimeOut ∧ s.TimeOut < 100 * hourd ∧
      s.TimeIn.tmod msec = 0 ∧ s.TimeOut.tmod msec = 0 := by
  rw [goodSub] at h
  simp only [decide_eq_true_eq, Bool.and_eq_true, List.all_eq_true] at h
  tauto

theorem prefix_an_false {line : Str} (h : line.headD ' ' ≠ '\x7b') :
    ['\x7b', '\\', 'a'].isPrefixOf line = false := by
  cases line with
  | nil => rfl
  | cons c cs =>
    simp only [List.headD_cons] at h
    have hb : ('\x7b' == c) = false := by
      simp only [beq_eq_false_iff_ne]
      exact fun e => h e.symm
    simp [List.isPrefixOf, hb]

theorem posSpecStep_good {s : Subtitle} {l0 : Str} {rest : List Str}
    (hl : s.Lines = l0 :: rest) (hhd : l0.headD ' ' ≠ '\x7b') :
    posSpecStep s = s := by
  rw [posSpecStep, hl]
  dsimp only
  rw [prefix_an_false hhd]
  simp

theorem fontStarter_none {l : Str} (hws : isWs (l.headD ' ') = false)
    (hlt : l.headD ' ' ≠ '<') (hne : l ≠ []) : fontStarter l = none := by
  cases l with
  | nil => exact absurd rfl hne
  | cons c cs =>
    simp only [List.headD_cons] at hws hlt
    rw [fontStarter]
    rw [List.dropWhile_cons_of_neg (by simp [hws])]
    simp [hlt]

theorem fontStep_good {s : Subtitle} {l0 : Str} {rest : List Str}
    (hl : s.Lines = l0 :: rest) (hws : isWs (l0.headD ' ') = false)
    (hlt : l0.headD ' ' ≠ '<') (hne : l0 ≠ []) :
    fontStep s = s := by
  rw [fontStep, hl]
  dsimp only
  rw [fontStarter_none hws hlt hne]

theorem addSub_good {s : Subtitle} {l0 : Str} {rest : List Str}
    (hl : s.Lines = l0 :: rest) (hgood : goodLine l0 = true) :
    addSub s = s := by
  obtain ⟨h1, h2, h3, h4, _, _⟩ := goodLine_parts hgood
  rw [addSub, if_neg (by rw [hl]; simp)]
  rw [posSpecStep_good hl h4, fontStep_good hl h2 h3 h1]

theorem foldl_rstep_text (acc : List Subtitle) :
    ∀ (ls : List Str) (t : Subtitle), (∀ l ∈ ls, l ≠ []) →
      List.foldl rstep (PState.wantText t, acc) ls =
        (PState.wantText ⟨t.TimeIn, t.TimeOut, t.Lines ++ ls, t.Pos, t.Color⟩, acc) := by
  intro ls
  induction ls with
  | nil =>
    intro t _
    simp
  | cons l rest ih =>
    intro t h
    rw [List.foldl_cons]
    have hstep : rstep (PState.wantText t, acc) l =
        (PState.wantText { t with Lines := t.Lines ++ [l] }, acc) := by
      simp only [rstep]
      rw [if_neg (h l (by simp))]
    rw [hstep, ih _ (fun x hx => h x (by simp [hx]))]
    simp [List.append_assoc]

theorem machine_record {sep : Char} (hsep : sep = ',' ∨ sep = '.') (seq : Str)
    (hseq : seq ≠ []) (s : Subtitle) (hg : goodSub s = true) (acc : List Subtitle) :
    List.foldl rstep (PState.wantSeq, acc) (recordLines sep seq s) =
      (PState.wantSeq, acc ++ [s]) := by
  obtain ⟨hpos, hcol, hne, hall, h01, hlt1, h02, hlt2, hm1, hm2⟩ := goodSub_parts hg
  rcases hl : s.Lines with _ | ⟨l0, rest⟩
  · exact absurd hl hne
  rw [recordLines, List.foldl_cons]
  have h1 : rstep (PState.wantSeq, acc) seq = (PState.wantTs default, acc) := by
    simp only [rstep]
    rw [if_neg hseq]
  rw [h1, List.foldl_cons]
  have h2 : rstep (PState.wantTs default, acc) (tsLineOf sep s) =
      (PState.wantText { (default : Subtitle) with
        TimeIn := s.TimeIn, TimeOut := s.TimeOut }, acc) := by
    simp only [rstep]
    rw [parseTimestamps_tsLine sep hsep s default h01 hlt1 h02 hlt2 hm1 hm2]
  rw [h2, List.foldl_append]
  rw [foldl_rstep_text acc s.Lines _
    (fun x hx => (goodLine_parts (hall x hx)).1)]
  have hs' : (⟨({ (default : Subtitle) with
        TimeIn := s.TimeIn, TimeOut := s.TimeOut } : Subtitle).TimeIn,
      ({ (default : Subtitle) with
        TimeIn := s.TimeIn, TimeOut := s.TimeOut } : Subtitle).TimeOut,
      ({ (default : Subtitle) with
        TimeIn := s.TimeIn, TimeOut := s.TimeOut } : Subtitle).Lines ++ s.Lines,
      ({ (default : Subtitle) with
        TimeIn := s.TimeIn, TimeOut := s.TimeOut } : Subtitle).Pos,
      ({ (default : Subtitle) with
        TimeIn := s.TimeIn, TimeOut := s.TimeOut } : Subtitle).Color⟩ : Subtitle) = s := by
    obtain ⟨tin, tout, lines, pos, color⟩ := s
    obtain rfl : pos = Pos.PosNotSpecified := hpos
    obtain rfl : color = [] := hcol
    rfl
  rw [hs', List.foldl_cons]
  have h3 : rstep (PState.wantText s, acc) [] = (PState.wantSeq, acc ++ [addSub s]) := by
    simp [rstep]
  rw [h3, List.foldl_nil, addSub_good hl (hall l0 (by rw [hl]; simp))]

theorem machine_blocks {sep : Char} (hsep : sep = ',' ∨ sep = '.') :
    ∀ (subs : List Subtitle) (i : Nat) (acc : List Subtitle),
      (∀ s ∈ subs, goodSub s = true) →
      List.foldl rstep (PState.wantSeq, acc) (blockLines sep i subs) =
        (PState.wantSeq, acc ++ subs) := by
  intro subs
  induction subs with
  | nil =>
    intro i acc _
    simp [blockLines]
  | cons s rest ih =>
    intro i acc h
    rw [blockLines, List.foldl_append,
      machine_record hsep (decDigits (i + 1)) (decDigits_ne_nil (i + 1)) s (h s (by simp)) acc,
      ih (i + 1) (acc ++ [s]) (fun x hx => h x (by simp [hx]))]
    simp

theorem goodPack_parts {subs : List Subtitle} (h : goodPack subs = true) :
    (∀ s ∈ subs, goodSub s = true) ∧ ascendingTimeIn subs = true := by
  rw [goodPack] at h
  simp only [Bool.and_eq_true, List.all_eq_true] at h
  exact h

theorem ascendingTimeIn_pairwise : ∀ (subs : List Subtitle), ascendingTimeIn subs = true →
    List.Pairwise (fun a b : Subtitle => a.TimeIn ≤ b.TimeIn) subs := by
  intro subs
  induction subs with
  | nil =>
    intro _
    exact List.Pairwise.nil
  | cons a rest ih =>
    intro h
    cases rest with
    | nil => exact List.pairwise_singleton _ _
    | cons b rest2 =>
      rw [ascendingTimeIn] at h
      simp only [Bool.and_eq_true, decide_eq_true_eq] at h
      obtain ⟨hab, htail⟩ := h
      have hp := ih htail
      refine List.pairwise_cons.mpr ⟨?_, hp⟩
      intro x hx
      rcases List.mem_cons.mp hx with rfl | hx2
      · exact le_of_lt hab
      · have hbx := (List.pairwise_cons.mp hp).1 x hx2
        exact le_of_lt (lt_of_lt_of_le hab hbx)

theorem readSrtLines_blocks {sep : Char} (hsep : sep = ',' ∨ sep = '.')
    (subs : List Subtitle) (hall : ∀ s ∈ subs, goodSub s = true)
    (hsorted : List.Pairwise (fun a b : Subtitle => a.TimeIn ≤ b.TimeIn) subs) :
    readSrtLines (blockLines sep 0 subs) = ⟨subs⟩ := by
  cases subs with
  | nil => rfl
  | cons s rest =>
    have hm := machine_blocks hsep (s :: rest) 0 [] hall
    rw [blockLines, recordLines] at hm ⊢
    simp only [List.cons_append] at hm ⊢
    simp only [readSrtLines]
    rw [stripBOM_of_digit (decDigits_headD_digit (0 + 1))]
    rw [hm]
    simp only [List.nil_append]
    exact sortPack_of_sorted ⟨s :: rest⟩ hsorted

theorem crlfJoin_append (a b : List Str) :
    crlfJoin (a ++ b) = crlfJoin a ++ crlfJoin b := by
  induction a with
  | nil => rfl
  | cons l rest ih => simp [crlfJoin, ih]

theorem writeTextPlain_eq_crlfJoin (ls : List Str) : writeTextPlain ls = crlfJoin ls := by
  induction ls with
  | nil => rfl
  | cons l rest ih => simp [writeTextPlain, crlfJoin, crlf, ih]

theorem writeText_plain {s : Subtitle} (hpos : s.Pos = Pos.PosNotSpecified)
    (hcol : s.Color = []) : writeText s = writeTextPlain s.Lines := by
  rcases hl : s.Lines with _ | ⟨l0, rest⟩
  · rw [writeText, hl]
    rfl
  · rw [writeText, hl]
    dsimp only
    rw [hpos, hcol]
    simp

theorem writeSub_eq (i : Nat) {s : Subtitle} (hpos : s.Pos = Pos.PosNotSpecified)
    (hcol : s.Color = []) :
    writeSub i s = crlfJoin (recordLines '.' (decDigits (i + 1)) s) := by
  rw [writeSub, recordLines, writeText_plain hpos hcol, writeTextPlain_eq_crlfJoin]
  simp [crlfJoin, crlfJoin_append, crlf, tsLineOf, printTime, List.append_assoc]

theorem writeSubsFrom_eq :
    ∀ (subs : List Subtitle) (i : Nat),
      (∀ s ∈ subs, goodSub s = true) →
      writeSubsFrom i subs = crlfJoin (blockLines '.' i subs) := by
  intro subs
  induction subs with
  | nil =>
    intro i _
    rfl
  | cons s rest ih =>
    intro i h
    obtain ⟨hpos, hcol, _⟩ := goodSub_parts (h s (by simp))
    rw [writeSubsFrom, blockLines, crlfJoin_append, writeSub_eq i hpos hcol,
      ih (i + 1) (fun x hx => h x (by simp [hx]))]

theorem splitLinesGo_fuel :
    ∀ (f1 : Nat) (l : Str) (f2 : Nat), l.length < f1 → l.length < f2 →
      splitLinesGo f1 l = splitLinesGo f2 l := by
  intro f1
  induction f1 with
  | zero =>
    intro l f2 h1 _
    omega
  | succ F ih =>
    intro l f2 h1 h2
    cases f2 with
    | zero => omega
    | succ G =>
      rw [splitLinesGo, splitLinesGo]
      by_cases hl : l = []
      · rw [if_pos hl, if_pos hl]
      · rw [if_neg hl, if_neg hl]
        cases hd : l.dropWhile (fun c => ¬ c = '\n') with
        | nil => rfl
        | cons c tail =>
          have hsub : (l.dropWhile (fun c => (¬ c = '\n' : Bool))).length ≤ l.length :=
            (List.dropWhile_sublist _).length_le
          rw [hd] at hsub
          simp only [List.length_cons] at hsub
          dsimp only
          rw [ih tail G (by omega) (by omega)]

theorem splitLinesGo_crlfJoin :
    ∀ (ls : List Str) (fuel : Nat), (crlfJoin ls).length < fuel →
      (∀ l ∈ ls, l.contains '\n' = false ∧ l.getLastD ' ' ≠ '\r') →
      splitLinesGo fuel (crlfJoin ls) = ls := by
  intro ls
  induction ls with
  | nil =>
    intro fuel hf _
    cases fuel with
    | zero => omega
    | succ F => simp [splitLinesGo, crlfJoin]
  | cons l rest ih =>
    intro fuel hf h
    cases fuel with
    | zero => omega
    | succ F =>
      obtain ⟨hnl, hcr⟩ := h l (by simp)
      have hmem : '\n' ∉ l := by simpa using hnl
      have hchars : ∀ c ∈ l, (¬ c = '\n' : Bool) = true := by
        intro c hc
        simp only [decide_eq_true_eq]
        intro he
        exact hmem (he ▸ hc)
      rw [crlfJoin, splitLinesGo]
      rw [if_neg (by simp)]
      have htake : (l ++ '\r' :: '\n' :: crlfJoin rest).takeWhile (fun c => ¬ c = '\n') =
          l ++ ['\r'] := by
        rw [takeWhile_append_of_all _ hchars]
        rw [List.takeWhile_cons_of_pos (by decide), List.takeWhile_cons_of_neg (by decide)]
      have hdrop : (l ++ '\r' :: '\n' :: crlfJoin rest).dropWhile (fun c => ¬ c = '\n') =
          '\n' :: crlfJoin rest := by
        rw [dropWhile_append_of_all _ hchars]
        rw [List.dropWhile_cons_of_pos (by decide), List.dropWhile_cons_of_neg (by decide)]
      rw [hdrop, htake]
      dsimp only
      have hdtc : dropTrailCR (l ++ ['\r']) = l := by
        rw [dropTrailCR, if_pos]
        · simp
        · constructor
          · rw [getLastD_append (by simp) ' ']
            rfl
          · simp
      rw [hdtc]
      have hflen : (crlfJoin rest).length < F := by
        have hlen : (crlfJoin (l :: rest)).length = l.length + 2 + (crlfJoin rest).length := by
          simp [crlfJoin]
          omega
        omega
      rw [ih F hflen (fun x hx => h x (by simp [hx]))]

theorem splitLines_crlfJoin (ls : List Str)
    (h : ∀ l ∈ ls, l.contains '\n' = false ∧ l.getLastD ' ' ≠ '\r') :
    splitLines (crlfJoin ls) = ls := by
  rw [splitLines]
  exact splitLinesGo_crlfJoin ls _ (by omega) h

theorem recordLines_splitOK {sep : Char} (hsep : sep = ',' ∨ sep = '.') (i : Nat)
    {s : Subtitle} (hg : goodSub s = true) :
    ∀ l ∈ recordLines sep (decDigits (i + 1)) s,
      l.contains '\n' = false ∧ l.getLastD ' ' ≠ '\r' := by
  obtain ⟨_, _, hne, hall, _⟩ := goodSub_parts hg
  intro l hl
  rw [recordLines] at hl
  rcases List.mem_cons.mp hl with rfl | hl2
  · constructor
    · exact contains_false (fun c hc => (isDigitC_ne (decDigits_digits _ c hc)).1)
    · have hmem := getLastD_mem (decDigits_ne_nil (i + 1)) ' '
      exact (isDigitC_ne (decDigits_digits _ _ hmem)).2
  rcases List.mem_cons.mp hl2 with rfl | hl3
  · constructor
    · exact contains_false (fun c hc => (tsLineOf_chars hsep s c hc).1)
    · have hmem := getLastD_mem (tsLineOf_ne_nil sep s) ' '
      exact (tsLineOf_chars hsep s _ hmem).2
  rcases List.mem_append.mp hl3 with hl4 | hl5
  · obtain ⟨_, _, _, _, hnl, hlast⟩ := goodLine_parts (hall l hl4)
    exact ⟨hnl, hlast⟩
  · rcases List.mem_singleton.mp hl5 with rfl
    exact ⟨rfl, by decide⟩

theorem blockLines_splitOK {sep : Char} (hsep : sep = ',' ∨ sep = '.') :
    ∀ (subs : List Subtitle) (i : Nat), (∀ s ∈ subs, goodSub s = true) →
      ∀ l ∈ blockLines sep i subs, l.contains '\n' = false ∧ l.getLastD ' ' ≠ '\r' := by
  intro subs
  induction subs with
  | nil =>
    intro i _ l hl
    simp [blockLines] at hl
  | cons s rest ih =>
    intro i h l hl
    rw [blockLines] at hl
    rcases List.mem_append.mp hl with h1 | h2
    · exact recordLines_splitOK hsep i (h s (by simp)) l h1
    · exact ih (i + 1) (fun x hx => h x (by simp [hx])) l h2

/-- **C3**: For every well-formed SubRip input (the canonical rendering of a
good pack), parsing yields exactly those subtitles; re-serializing the
resulting pack emits the canonical records with identical timestamps (to
millisecond precision) and identical text for every entry, with sequence
numbers regenerated as 1-based output positions (and the source's `.`
before the milliseconds); parsing the re-serialized output reproduces the
same pack; and the spec's example input parses to one entry with
`timeIn = 1000 ms`, `timeOut = 2000 ms` and the single line `Hello`. -/
theorem C3_roundtrip (subs : List Subtitle) (h : goodPack subs = true) :
    readSrtLines (renderSrtLines subs) = ⟨subs⟩ ∧
      writeSrt (readSrtLines (renderSrtLines subs)) = crlfJoin (blockLines '.' 0 subs) ∧
      readSrt (writeSrt (readSrtLines (renderSrtLines subs))) = ⟨subs⟩ ∧
      readSrt c3In = c3Pack := by
  obtain ⟨hall, hasc⟩ := goodPack_parts h
  have hsorted : List.Pairwise (fun a b : Subtitle => a.TimeIn ≤ b.TimeIn) subs :=
    ascendingTimeIn_pairwise subs hasc
  have hread : readSrtLines (renderSrtLines subs) = ⟨subs⟩ := by
    rw [renderSrtLines]
    exact readSrtLines_blocks (Or.inl rfl) subs hall hsorted
  have hwrite : writeSrt (readSrtLines (renderSrtLines subs)) =
      crlfJoin (blockLines '.' 0 subs) := by
    rw [hread, writeSrt]
    exact writeSubsFrom_eq subs 0 hall
  refine ⟨hread, hwrite, ?_, by decide⟩
  rw [hwrite, readSrt, splitLines_crlfJoin _ (blockLines_splitOK (Or.inr rfl) subs 0 hall)]
  exact readSrtLines_blocks (Or.inr rfl) subs hall hsorted

/-- Witness for C3 at the spec's example pack. -/
theorem C3_roundtrip_witness :
    goodPack c3WSubs = true ∧
      (readSrtLines (renderSrtLines c3WSubs) = ⟨c3WSubs⟩ ∧
        writeSrt (readSrtLines (renderSrtLines c3WSubs)) =
          crlfJoin (blockLines '.' 0 c3WSubs) ∧
        readSrt (writeSrt (readSrtLines (renderSrtLines c3WSubs))) = ⟨c3WSubs⟩ ∧
        readSrt c3In = c3Pack) :=
  ⟨by decide, C3_roundtrip c3WSubs (by decide)⟩

end Srtgears
